import Mathlib

/-!
Verification model of the `boardswarm/fastboot-rs` repository.

The definitions below are a shallow embedding of:
  * `android-sparse-image/src/lib.rs`  (file/chunk header codec),
  * `android-sparse-image/src/split.rs` (split planner), and
  * `fastboot-protocol/src/nusb.rs`     (`DataDownload` streaming helper).

Modelling conventions:
  * Machine integers (`u32`, `u16`, `u8`, `usize`) are modelled as `Nat`;
    where relevant the theorems carry explicit `< 2^32` bounds matching
    the Rust types.  Saturating operations (`saturating_add`,
    `saturating_mul`, `saturating_sub`) and `as` casts (which truncate
    modulo `2^w` in every build profile) are modelled explicitly with
    `satU32` / `% U32_MOD` / truncating `Nat` subtraction.  The checked
    u32 operations that can overflow on reachable inputs — the
    `block_offset + chunk.chunk_size` accumulator of `split_image`, the
    products `blocks * block_size` (Raw packing loop) and
    `block_offset * DEFAULT_BLOCKSIZE` (`split_raw`), and the error
    expression `size - self.left + self.size` of
    `DataDownload::update_size` — are modelled with the wrapping
    release-build semantics (`% U32_MOD`); debug builds panic exactly
    where the wrap engages, so theorems about the affected values carry
    explicit no-overflow hypotheses under which both build profiles
    agree with the model.
  * Loops of the source that are not structurally recursive are given a
    fuel parameter and return `Option`; `none` corresponds to an
    execution that panics (e.g. division by zero in `add_raw` when
    `block_size = 0`) or diverges.  The fuel passed by the entry points
    is proved sufficient in every situation where the source terminates.
  * USB transfers in `DataDownload` are modelled with an idealized
    always-successful transport: a submitted buffer is appended to
    `sent` (the in-order list of everything handed to the bulk-out
    endpoint) and completions recycle a cleared buffer of the same
    capacity, which is observably identical to a fresh
    `allocate_buffer`.  Protocol responses read by `finish` are
    abstracted to the `responses_read` flag.
-/

set_option linter.unusedVariables false

namespace FastbootRs

/-! ## Constants (android-sparse-image/src/lib.rs) -/

def FILE_HEADER_BYTES_LEN : Nat := 28

def CHUNK_HEADER_BYTES_LEN : Nat := 12

def HEADER_MAGIC : Nat := 0xed26ff3a

def DEFAULT_BLOCKSIZE : Nat := 4096

/-- `2^32`; modulus of `u32` arithmetic, used for `as u32` casts. -/
def U32_MOD : Nat := 4294967296

/-- `u32::MAX`, the value saturating `u32` arithmetic stops at. -/
def U32_MAX : Nat := 4294967295

/-- Saturating `u32` result: `min n u32::MAX`. -/
def satU32 (n : Nat) : Nat := min n U32_MAX

/-! ## Sparse codec data model -/

inductive ParseError where
  | UnknownMagic
  | UnknownVersion
  | UnexpectedSize
  | UnknownChunkType
deriving DecidableEq, Repr

structure FileHeader where
  block_size : Nat
  blocks : Nat
  chunks : Nat
  checksum : Nat
deriving DecidableEq, Repr

inductive ChunkType where
  | Raw
  | Fill
  | DontCare
  | Crc32
deriving DecidableEq, Repr

/-- The `u16` discriminant of each chunk type (`#[derive(FromRepr)]`). -/
def ChunkType.code : ChunkType → Nat
  | .Raw => 0xcac1
  | .Fill => 0xcac2
  | .DontCare => 0xcac3
  | .Crc32 => 0xcac4

/-- `ChunkType::from_repr`: decode the `u16` discriminant. -/
def ChunkType.from_repr (n : Nat) : Option ChunkType :=
  if n = 0xcac1 then some .Raw
  else if n = 0xcac2 then some .Fill
  else if n = 0xcac3 then some .DontCare
  else if n = 0xcac4 then some .Crc32
  else none

structure ChunkHeader where
  chunk_type : ChunkType
  chunk_size : Nat
  total_size : Nat
deriving DecidableEq, Repr

/-- `FileHeader::from_bytes`: the input is a fixed `[u8; 28]` array, so
the model matches on exactly 28 bytes (the wildcard arm is unreachable
for inputs of the source's type).  Multi-byte fields are read
little-endian (`get_u16_le` / `get_u32_le`) and the checks appear in
source order. -/
def FileHeader.from_bytes : List Nat → Except ParseError FileHeader
  | [b0, b1, b2, b3, b4, b5, b6, b7, b8, b9, b10, b11, b12, b13, b14, b15,
     b16, b17, b18, b19, b20, b21, b22, b23, b24, b25, b26, b27] =>
    if b0 + 256 * b1 + 65536 * b2 + 16777216 * b3 ≠ HEADER_MAGIC then
      .error .UnknownMagic
    else if b4 + 256 * b5 ≠ 1 then .error .UnknownVersion
    else if b6 + 256 * b7 ≠ 0 then .error .UnknownVersion
    else if b8 + 256 * b9 ≠ FILE_HEADER_BYTES_LEN then .error .UnexpectedSize
    else if b10 + 256 * b11 ≠ CHUNK_HEADER_BYTES_LEN then .error .UnexpectedSize
    else .ok { block_size := b12 + 256 * b13 + 65536 * b14 + 16777216 * b15,
               blocks := b16 + 256 * b17 + 65536 * b18 + 16777216 * b19,
               chunks := b20 + 256 * b21 + 65536 * b22 + 16777216 * b23,
               checksum := b24 + 256 * b25 + 65536 * b26 + 16777216 * b27 }
  | _ => .error .UnknownMagic

/-- `FileHeader::to_bytes`: the 28 bytes written by the sequence of
`put_u32_le`/`put_u16_le` calls, spelled out little-endian byte by byte
(magic, version 1.0, the two size constants, then the four fields). -/
def FileHeader.to_bytes (h : FileHeader) : List Nat :=
  [0x3a, 0xff, 0x26, 0xed,
   0x01, 0x00, 0x00, 0x00,
   0x1c, 0x00, 0x0c, 0x00,
   h.block_size % 256, h.block_size / 256 % 256,
   h.block_size / 65536 % 256, h.block_size / 16777216 % 256,
   h.blocks % 256, h.blocks / 256 % 256,
   h.blocks / 65536 % 256, h.blocks / 16777216 % 256,
   h.chunks % 256, h.chunks / 256 % 256,
   h.chunks / 65536 % 256, h.chunks / 16777216 % 256,
   h.checksum % 256, h.checksum / 256 % 256,
   h.checksum / 65536 % 256, h.checksum / 16777216 % 256]

/-- `ChunkHeader::new_dontcare`. -/
def ChunkHeader.new_dontcare (blocks : Nat) : ChunkHeader :=
  { chunk_type := .DontCare, total_size := CHUNK_HEADER_BYTES_LEN, chunk_size := blocks }

/-- `ChunkHeader::new_raw`; the source uses `saturating_add`/`saturating_mul`. -/
def ChunkHeader.new_raw (blocks block_size : Nat) : ChunkHeader :=
  { chunk_type := .Raw, chunk_size := blocks,
    total_size := satU32 (CHUNK_HEADER_BYTES_LEN + satU32 (blocks * block_size)) }

/-- `ChunkHeader::new_fill`. -/
def ChunkHeader.new_fill (blocks : Nat) : ChunkHeader :=
  { chunk_type := .Fill, chunk_size := blocks, total_size := CHUNK_HEADER_BYTES_LEN + 4 }

/-- `ChunkHeader::from_bytes`: the input is a fixed `[u8; 12]` array.
Decode the type from the first little-endian `u16`, skip the 2 reserved
bytes, then read `chunk_size` and `total_size`. -/
def ChunkHeader.from_bytes : List Nat → Except ParseError ChunkHeader
  | [b0, b1, _b2, _b3, b4, b5, b6, b7, b8, b9, b10, b11] =>
    match ChunkType.from_repr (b0 + 256 * b1) with
    | none => .error .UnknownChunkType
    | some t =>
      .ok { chunk_type := t,
            chunk_size := b4 + 256 * b5 + 65536 * b6 + 16777216 * b7,
            total_size := b8 + 256 * b9 + 65536 * b10 + 16777216 * b11 }
  | _ => .error .UnknownChunkType

/-- `ChunkHeader::to_bytes`: type code, two zero reserved bytes,
`chunk_size`, `total_size`, little-endian. -/
def ChunkHeader.to_bytes (c : ChunkHeader) : List Nat :=
  [c.chunk_type.code % 256, c.chunk_type.code / 256 % 256,
   0x00, 0x00,
   c.chunk_size % 256, c.chunk_size / 256 % 256,
   c.chunk_size / 65536 % 256, c.chunk_size / 16777216 % 256,
   c.total_size % 256, c.total_size / 256 % 256,
   c.total_size / 65536 % 256, c.total_size / 16777216 % 256]

/-- `ChunkHeader::data_size`: `total_size.saturating_sub(12)` (as `usize`),
which truncating `Nat` subtraction models exactly. -/
def ChunkHeader.data_size (c : ChunkHeader) : Nat :=
  c.total_size - CHUNK_HEADER_BYTES_LEN

/-! ## Split planner (android-sparse-image/src/split.rs) -/

structure SplitChunk where
  header : ChunkHeader
  offset : Nat
  size : Nat
deriving DecidableEq, Repr

structure Split where
  header : FileHeader
  chunks : List SplitChunk
deriving DecidableEq, Repr

/-- `Split::from_chunks`. -/
def Split.from_chunks (chunks : List SplitChunk) (block_size : Nat) : Split :=
  { header := { block_size := block_size,
                blocks := (chunks.map (fun c => c.header.chunk_size)).sum,
                chunks := chunks.length,
                checksum := 0 },
    chunks := chunks }

/-- `Split::sparse_size`. -/
def Split.sparse_size (s : Split) : Nat :=
  FILE_HEADER_BYTES_LEN + (s.chunks.map (fun c => c.header.total_size)).sum

structure SplitBuilder where
  space : Nat
  block_size : Nat
  chunks : List SplitChunk
deriving DecidableEq, Repr

/-- `SplitBuilder::new`: reserve the file header, and when opening at a
nonzero block offset also a leading synthetic DontCare chunk. -/
def SplitBuilder.new (block_size space blocks_offset : Nat) : SplitBuilder :=
  let space := space - FILE_HEADER_BYTES_LEN
  if blocks_offset = 0 then
    { space := space, block_size := block_size, chunks := [] }
  else
    let header := ChunkHeader.new_dontcare blocks_offset
    { space := space - header.total_size, block_size := block_size,
      chunks := [{ header := header, offset := 0, size := 0 }] }

/-- `SplitBuilder::try_add_chunk`: strict `space > total_size` test;
`some` is the `true` return with the updated builder. -/
def SplitBuilder.try_add_chunk (b : SplitBuilder) (chunk : ChunkHeader)
    (image_offset : Nat) : Option SplitBuilder :=
  if chunk.total_size < b.space then
    some { b with
           chunks := b.chunks ++
             [{ header := chunk, offset := image_offset, size := chunk.data_size }],
           space := b.space - chunk.total_size }
  else none

/-- `SplitBuilder::add_raw`.  `none` models the division-by-zero panic
when `block_size = 0`; otherwise returns the blocks taken and the
updated builder (`left` uses `saturating_sub`). -/
def SplitBuilder.add_raw (b : SplitBuilder) (image_offset blocks : Nat) :
    Option (Nat × SplitBuilder) :=
  if b.block_size = 0 then none
  else
    let left := b.space - CHUNK_HEADER_BYTES_LEN
    let blocks_left := left / b.block_size
    if 0 < blocks_left then
      let blocks := min blocks blocks_left
      let header := ChunkHeader.new_raw blocks b.block_size
      some (blocks,
        { b with
          space := b.space - header.total_size,
          chunks := b.chunks ++
            [{ header := header, offset := image_offset, size := header.data_size }] })
    else some (0, b)

/-- `SplitBuilder::finish`. -/
def SplitBuilder.finish (b : SplitBuilder) : Split :=
  Split.from_chunks b.chunks b.block_size

inductive SplitError where
  | TooSmall
deriving DecidableEq, Repr

/-- `check_minimal_size`: file header + two chunk headers + one block. -/
def check_minimal_size (size block_size : Nat) : Except SplitError Unit :=
  if size < FILE_HEADER_BYTES_LEN + 2 * CHUNK_HEADER_BYTES_LEN + block_size then
    .error .TooSmall
  else .ok ()

/-- The inner `loop` of `split_image` packing a Raw chunk in parts.
`blocks` is the running count of blocks of this chunk already emitted.
The fuel (`chunk_size + 2` at the call site) is sufficient whenever the
source loop terminates: a fresh builder always accepts at least one
block when the minimal-size check passed and `block_size > 0`.
The u32 product `blocks * header.block_size` and the u32 sum
`block_offset + blocks` wrap modulo `2^32` as in release builds (debug
builds panic on the overflow, so they never exhibit the wrapped
values). -/
def rawChunkLoop (block_size size image_offset chunk_size block_offset : Nat) :
    Nat → Nat → SplitBuilder → List Split → Option (SplitBuilder × List Split)
  | 0, _, _, _ => none
  | fuel + 1, blocks, builder, splits =>
    match builder.add_raw (image_offset + (blocks * block_size) % U32_MOD)
        (chunk_size - blocks) with
    | none => none
    | some (added, builder) =>
      let blocks := blocks + added
      if chunk_size ≤ blocks then some (builder, splits)
      else
        rawChunkLoop block_size size image_offset chunk_size block_offset fuel blocks
          (SplitBuilder.new block_size size ((block_offset + blocks) % U32_MOD))
          (splits ++ [builder.finish])

/-- The `try_fold` body of `split_image`, one input chunk at a time.
State: remaining chunks, `block_offset` (blocks of the output emitted so
far), `image_offset` (byte cursor into the source image, pointing at the
current chunk's data), the open builder, and the finished splits.  The
u32 accumulator `block_offset + chunk.chunk_size` wraps modulo `2^32`
as in release builds (debug builds panic on the overflow).
`image_offset` is a `usize`. -/
def splitImageGo (block_size size : Nat) :
    List ChunkHeader → Nat → Nat → SplitBuilder → List Split →
    Option (Except SplitError (List Split))
  | [], _, _, builder, splits => some (.ok (splits ++ [builder.finish]))
  | chunk :: rest, block_offset, image_offset, builder, splits =>
    match builder.try_add_chunk chunk image_offset with
    | some builder =>
      splitImageGo block_size size rest
        ((block_offset + chunk.chunk_size) % U32_MOD)
        (image_offset + chunk.total_size) builder splits
    | none =>
      if chunk.chunk_type = ChunkType.Raw then
        match rawChunkLoop block_size size image_offset chunk.chunk_size block_offset
            (chunk.chunk_size + 2) 0 builder splits with
        | none => none
        | some (builder, splits) =>
          splitImageGo block_size size rest
            ((block_offset + chunk.chunk_size) % U32_MOD)
            (image_offset + chunk.total_size) builder splits
      else
        let splits := splits ++ [builder.finish]
        let builder := SplitBuilder.new block_size size block_offset
        match builder.try_add_chunk chunk image_offset with
        | some builder =>
          splitImageGo block_size size rest
            ((block_offset + chunk.chunk_size) % U32_MOD)
            (image_offset + chunk.total_size) builder splits
        | none => some (.error .TooSmall)

/-- `split_image`.  `none` models a panicking/diverging execution
(possible only for `block_size = 0`, where the source divides by zero). -/
def split_image (header : FileHeader) (chunks : List ChunkHeader) (size : Nat) :
    Option (Except SplitError (List Split)) :=
  match check_minimal_size size header.block_size with
  | .error e => some (.error e)
  | .ok _ =>
    splitImageGo header.block_size size chunks 0
      (FILE_HEADER_BYTES_LEN + CHUNK_HEADER_BYTES_LEN)
      (SplitBuilder.new header.block_size size 0) []

/-- Rust `usize::div_ceil`. -/
def divCeil (a b : Nat) : Nat := a / b + (if a % b = 0 then 0 else 1)

/-- The `while raw_blocks > block_offset` loop of `split_raw`.  The u32
product `block_offset * DEFAULT_BLOCKSIZE` wraps modulo `2^32` as in
release builds (debug builds panic on the overflow); the u32 sum
`block_offset + added` never exceeds `raw_blocks < 2^32`, so it needs
no reduction. -/
def splitRawLoop (size raw_blocks : Nat) :
    Nat → Nat → List Split → Option (List Split)
  | 0, _, _ => none
  | fuel + 1, block_offset, splits =>
    if block_offset < raw_blocks then
      let builder := SplitBuilder.new DEFAULT_BLOCKSIZE size block_offset
      match builder.add_raw ((block_offset * DEFAULT_BLOCKSIZE) % U32_MOD)
          (raw_blocks - block_offset) with
      | none => none
      | some (added, builder) =>
        splitRawLoop size raw_blocks fuel (block_offset + added)
          (splits ++ [builder.finish])
    else some splits

/-- `split_raw`.  The `as u32` cast of `raw_size.div_ceil(4096)` truncates
modulo `2^32` in every build profile, hence the `% U32_MOD`. -/
def split_raw (raw_size size : Nat) : Option (Except SplitError (List Split)) :=
  match check_minimal_size size DEFAULT_BLOCKSIZE with
  | .error e => some (.error e)
  | .ok _ =>
    let raw_blocks := divCeil raw_size DEFAULT_BLOCKSIZE % U32_MOD
    (splitRawLoop size raw_blocks (raw_blocks + 1) 0 []).map Except.ok

/-! ## Predicates used to state the split claims -/

/-- Total payload bytes of the splits' chunks (synthetic DontCare
chunks contribute their stored `size`, which is `0`). -/
def sumSplitSizes (L : List Split) : Nat :=
  (L.map (fun s => (s.chunks.map (fun c => c.size)).sum)).sum

/-- Total `data_size` of a list of input chunk headers. -/
def sumDataSizes (cs : List ChunkHeader) : Nat :=
  (cs.map (fun c => c.data_size)).sum

def liveBlocksB (b : SplitBuilder) : Nat :=
  ((b.chunks.filter (fun c => c.offset != 0)).map (fun c => c.header.chunk_size)).sum

/-- Sum of `chunk_size` over Raw chunks of a split. -/
def rawBlocksOf (s : Split) : Nat :=
  ((s.chunks.filter (fun c => c.header.chunk_type == ChunkType.Raw)).map
    (fun c => c.header.chunk_size)).sum

/-- The synthetic leading DontCare chunk list a builder opened at block
offset `v` starts with. -/
def synth (v : Nat) : List SplitChunk :=
  if v = 0 then [] else [{ header := ChunkHeader.new_dontcare v, offset := 0, size := 0 }]

def BuilderSkel (v : Nat) (b : SplitBuilder) : Prop :=
  ∃ rest, b.chunks = synth v ++ rest ∧ ∀ c ∈ rest, c.offset ≠ 0

/-- Shape of `split_raw` output: starting at block `v`, each split is a
synthetic seek (when `v > 0`) followed by exactly one Raw chunk whose
source offset is `v * 4096`. -/
def RawStructFrom : Nat → List Split → Prop
  | _, [] => True
  | v, s :: rest =>
    (∃ k, 0 < k ∧
      s.chunks = synth v ++
        [{ header := ChunkHeader.new_raw k DEFAULT_BLOCKSIZE,
           offset := v * DEFAULT_BLOCKSIZE,
           size := (ChunkHeader.new_raw k DEFAULT_BLOCKSIZE).data_size }]) ∧
    RawStructFrom (v + rawBlocksOf s) rest

/-- Well-formed Raw chunk: its payload is exactly its blocks
(`total_size = 12 + chunk_size * block_size`), as §3 of the format
prescribes. -/
def RawWF (block_size : Nat) (c : ChunkHeader) : Prop :=
  c.chunk_type = ChunkType.Raw →
    c.total_size = CHUNK_HEADER_BYTES_LEN + c.chunk_size * block_size

/-- On-wire bytes of the chunks a builder holds. -/
def chunksTotal (b : SplitBuilder) : Nat :=
  (b.chunks.map (fun c => c.header.total_size)).sum

/-- Payload bytes of the chunks a builder holds. -/
def sumSizesB (b : SplitBuilder) : Nat :=
  (b.chunks.map (fun c => c.size)).sum

/-! ## USB download helper (fastboot-protocol/src/nusb.rs) -/

structure Buffer where
  cap : Nat
  data : List Nat
deriving DecidableEq, Repr

/-- Rust `usize::next_multiple_of` (the source never calls it with 0). -/
def next_multiple_of (a b : Nat) : Nat :=
  if a % b = 0 then a else (a / b + 1) * b

/-- `DataDownload::allocate_buffer`: about 1 MiB, rounded up to a
multiple of the endpoint's max packet size. -/
def allocate_buffer (max_out : Nat) : Buffer :=
  { cap := next_multiple_of (1024 * 1024) max_out, data := [] }

inductive DownloadError where
  | NothingQueued
  | IncorrectDataLength (expected actual : Nat)
deriving DecidableEq, Repr

/-- State of the `DataDownload` helper.  `sent` records every buffer
submitted to the bulk-out endpoint, in submission order (the idealized
transport completes them all successfully). -/
structure DataDownload where
  size : Nat
  left : Nat
  max_out : Nat
  current : Buffer
  sent : List Buffer
deriving DecidableEq, Repr

/-- `DataDownload::new` (invoked by `NusbFastBoot::download` on `DATA n`). -/
def DataDownload.new (size max_out : Nat) : DataDownload :=
  { size := size, left := size, max_out := max_out,
    current := allocate_buffer max_out, sent := [] }

/-- `DataDownload::update_size`: the length check, performed before any
byte is buffered or submitted.  On overshoot the state is returned
untouched together with the error.  The u32 expression
`size - self.left + self.size` stored in the error's `actual` field
wraps modulo `2^32` as in release builds (debug builds panic on the
overflow). -/
def DataDownload.update_size (st : DataDownload) (k : Nat) :
    DataDownload × Option DownloadError :=
  if st.left < k then
    (st, some (.IncorrectDataLength st.size ((k - st.left + st.size) % U32_MOD)))
  else
    ({ st with left := st.left - k }, none)

/-- `DataDownload::next_buffer` with the idealized transport: submit the
current buffer when nonempty and continue with an empty buffer of the
standard capacity (a fresh allocation, or a completed buffer after
`clear()`, which is observably the same). -/
def DataDownload.next_buffer (st : DataDownload) : DataDownload :=
  if st.current.data.length = 0 then st
  else
    { st with
      sent := st.sent ++ [st.current],
      current := allocate_buffer st.max_out }

/-- The copy loop of `extend_from_slice`.  The fuel (`data.length + 2`
at the call site) is sufficient whenever the buffer capacity is
positive, which holds for every real endpoint. -/
def extendLoop : Nat → DataDownload → List Nat → Option DataDownload
  | 0, _, _ => none
  | fuel + 1, st, data =>
    if data.length ≤ st.current.cap - st.current.data.length then
      some { st with current := { st.current with data := st.current.data ++ data } }
    else
      extendLoop fuel
        (DataDownload.next_buffer
          { st with current := { st.current with
              data := st.current.data ++
                data.take (st.current.cap - st.current.data.length) } })
        (data.drop (st.current.cap - st.current.data.length))

/-- `DataDownload::extend_from_slice`: `update_size(data.len() as u32)`
first (note the truncating `as u32` cast), then the copy loop. -/
def DataDownload.extend_from_slice (st : DataDownload) (data : List Nat) :
    Option (DataDownload × Option DownloadError) :=
  match st.update_size (data.length % U32_MOD) with
  | (st, some e) => some (st, some e)
  | (st, none) => (extendLoop (data.length + 2) st data).map (fun st => (st, none))

/-- The slice length `get_mut_data` grants: `min(remaining, max)`. -/
def getMutGrant (st : DataDownload) (max : Nat) : Nat :=
  min (st.current.cap - st.current.data.length) max

/-- Body of `get_mut_data` after the roll-over to a fresh buffer. -/
def getMutAfter (st : DataDownload) (max : Nat) :
    (DataDownload × Nat) × Option DownloadError :=
  match st.update_size (getMutGrant st max % U32_MOD) with
  | (st2, some e) => ((st2, 0), some e)
  | (st2, none) =>
    (({ st2 with current := { st2.current with
          data := st2.current.data ++ List.replicate (getMutGrant st max) 0 } },
      getMutGrant st max), none)

/-- `DataDownload::get_mut_data`: roll to a fresh buffer when the
current one is full, hand out `min(remaining, max)` bytes (zero-filled
by `extend_fill`, to be overwritten by the caller), after the
`update_size(size as u32)` check.  Returns the slice length granted. -/
def DataDownload.get_mut_data (st : DataDownload) (max : Nat) :
    (DataDownload × Nat) × Option DownloadError :=
  getMutAfter (if st.current.cap = st.current.data.length then st.next_buffer else st) max

/-- Observable outcome of `DataDownload::finish`: the error (if any),
the full submission list afterwards, and whether protocol responses
were read (`handle_responses`, abstracted). -/
structure FinishResult where
  err : Option DownloadError
  sent : List Buffer
  responses_read : Bool
deriving DecidableEq, Repr

/-- `DataDownload::finish`: the undershoot check comes first and returns
before anything is submitted or any response read; on success the
pending partial buffer (if nonempty) is submitted, completions drained,
and the protocol response consumed. -/
def DataDownload.finish (st : DataDownload) : FinishResult :=
  if st.left ≠ 0 then
    { err := some (.IncorrectDataLength st.size (st.size - st.left)),
      sent := st.sent, responses_read := false }
  else
    { err := none,
      sent := if st.current.data.length = 0 then st.sent else st.sent ++ [st.current],
      responses_read := true }

/-- A client-visible call to the download helper. -/
inductive DLOp where
  | extend (data : List Nat)
  | getMut (max : Nat)

/-- Run a sequence of calls, accumulating the total number of payload
bytes consumed (slice lengths for `extend`, granted lengths for
`getMut`); stops at the first error, whose total includes the failing
call's bytes. -/
def runOps : List DLOp → DataDownload → Nat →
    Option (DataDownload × Nat × Option DownloadError)
  | [], st, t => some (st, t, none)
  | .extend data :: ops, st, t =>
    match st.extend_from_slice data with
    | none => none
    | some (st, some e) => some (st, t + data.length, some e)
    | some (st, none) => runOps ops st (t + data.length)
  | .getMut max :: ops, st, t =>
    match st.get_mut_data max with
    | ((st, k), some e) => some (st, t + k, some e)
    | ((st, k), none) => runOps ops st (t + k)

/-- Payload bytes a call promises up front (the slice length for
`extend`; `getMut` requests are granted dynamically). -/
def opLen : DLOp → Nat
  | .extend data => data.length
  | .getMut _ => 0

/-- Structural invariant of a `DataDownload`: the open buffer has the
standard capacity for this endpoint and is not over-filled. -/
def DLInv (st : DataDownload) : Prop :=
  st.current.cap = (allocate_buffer st.max_out).cap ∧
  st.current.data.length ≤ st.current.cap

end FastbootRs

namespace FastbootRs

/-! ## Codec lemmas -/

lemma from_repr_code (t : ChunkType) : ChunkType.from_repr t.code = some t := by
  cases t <;> rfl

lemma code_split (t : ChunkType) :
    t.code % 256 + 256 * (t.code / 256 % 256) = t.code := by
  cases t <;> rfl

lemma chunk_to_bytes_eq (c : ChunkHeader) : c.to_bytes =
    [c.chunk_type.code % 256, c.chunk_type.code / 256 % 256, 0x00, 0x00,
     c.chunk_size % 256, c.chunk_size / 256 % 256,
     c.chunk_size / 65536 % 256, c.chunk_size / 16777216 % 256,
     c.total_size % 256, c.total_size / 256 % 256,
     c.total_size / 65536 % 256, c.total_size / 16777216 % 256] := rfl

/-- C6 (round-trip of the header codecs): decoding an encoded
`FileHeader` (resp. `ChunkHeader`) whose fields fit in `u32` gives the
value back; conversely any 28-byte (resp. 12-byte) array that decodes
successfully is reproduced byte-identically by re-encoding the decoded
value, except that the two reserved chunk-header bytes are written as
zero. -/
theorem C6_round_trip :
    (∀ h : FileHeader, h.block_size < U32_MOD → h.blocks < U32_MOD →
      h.chunks < U32_MOD → h.checksum < U32_MOD →
      FileHeader.from_bytes h.to_bytes = .ok h) ∧
    (∀ c : ChunkHeader, c.chunk_size < U32_MOD → c.total_size < U32_MOD →
      ChunkHeader.from_bytes c.to_bytes = .ok c) ∧
    (∀ b0 b1 b2 b3 b4 b5 b6 b7 b8 b9 b10 b11 b12 b13 b14 b15 b16 b17 b18 b19
       b20 b21 b22 b23 b24 b25 b26 b27 : Nat, ∀ h : FileHeader,
      b0 < 256 → b1 < 256 → b2 < 256 → b3 < 256 → b4 < 256 → b5 < 256 →
      b6 < 256 → b7 < 256 → b8 < 256 → b9 < 256 → b10 < 256 → b11 < 256 →
      b12 < 256 → b13 < 256 → b14 < 256 → b15 < 256 → b16 < 256 → b17 < 256 →
      b18 < 256 → b19 < 256 → b20 < 256 → b21 < 256 → b22 < 256 → b23 < 256 →
      b24 < 256 → b25 < 256 → b26 < 256 → b27 < 256 →
      FileHeader.from_bytes [b0, b1, b2, b3, b4, b5, b6, b7, b8, b9, b10, b11,
        b12, b13, b14, b15, b16, b17, b18, b19, b20, b21, b22, b23, b24, b25,
        b26, b27] = .ok h →
      h.to_bytes = [b0, b1, b2, b3, b4, b5, b6, b7, b8, b9, b10, b11,
        b12, b13, b14, b15, b16, b17, b18, b19, b20, b21, b22, b23, b24, b25,
        b26, b27]) ∧
    (∀ b0 b1 b2 b3 b4 b5 b6 b7 b8 b9 b10 b11 : Nat, ∀ c : ChunkHeader,
      b0 < 256 → b1 < 256 → b4 < 256 → b5 < 256 → b6 < 256 → b7 < 256 →
      b8 < 256 → b9 < 256 → b10 < 256 → b11 < 256 →
      ChunkHeader.from_bytes [b0, b1, b2, b3, b4, b5, b6, b7, b8, b9, b10, b11] =
        .ok c →
      c.to_bytes = [b0, b1, 0, 0, b4, b5, b6, b7, b8, b9, b10, b11]) := by
  refine ⟨?_, ?_, ?_, ?_⟩
  · rintro ⟨bs, bl, ch, ck⟩ h1 h2 h3 h4
    simp only [U32_MOD] at *
    simp only [FileHeader.to_bytes, FileHeader.from_bytes,
      HEADER_MAGIC, FILE_HEADER_BYTES_LEN, CHUNK_HEADER_BYTES_LEN]
    split_ifs with hA hB hC hD hE
    · exfalso; omega
    · exfalso; omega
    · exfalso; omega
    · exfalso; omega
    · exfalso; omega
    · simp only [Except.ok.injEq, FileHeader.mk.injEq]
      omega
  · rintro ⟨t, cs, ts⟩ h1 h2
    simp only [U32_MOD] at *
    rw [chunk_to_bytes_eq]
    simp only [ChunkHeader.from_bytes, code_split, from_repr_code]
    simp only [Except.ok.injEq, ChunkHeader.mk.injEq, true_and]
    omega
  · intro b0 b1 b2 b3 b4 b5 b6 b7 b8 b9 b10 b11 b12 b13 b14 b15 b16 b17 b18
      b19 b20 b21 b22 b23 b24 b25 b26 b27 h
    intro v0 v1 v2 v3 v4 v5 v6 v7 v8 v9 v10 v11 v12 v13 v14 v15 v16 v17 v18
      v19 v20 v21 v22 v23 v24 v25 v26 v27 hdec
    simp only [FileHeader.from_bytes, HEADER_MAGIC, FILE_HEADER_BYTES_LEN,
      CHUNK_HEADER_BYTES_LEN] at hdec
    split_ifs at hdec with hA hB hC hD hE
    simp only [Except.ok.injEq] at hdec
    subst hdec
    simp only [ne_eq, not_not] at hA hB hC hD hE
    simp only [FileHeader.to_bytes, List.cons.injEq, and_true]
    omega
  · intro b0 b1 b2 b3 b4 b5 b6 b7 b8 b9 b10 b11 c
    intro v0 v1 v4 v5 v6 v7 v8 v9 v10 v11 hdec
    simp only [ChunkHeader.from_bytes] at hdec
    rcases e : ChunkType.from_repr (b0 + 256 * b1) with _ | t
    · rw [e] at hdec
      simp at hdec
    · rw [e] at hdec
      simp only [Except.ok.injEq] at hdec
      subst hdec
      simp only [ChunkType.from_repr] at e
      split_ifs at e with hc1 hc2 hc3 hc4 <;> simp only [Option.some.injEq] at e <;>
        subst e <;>
        (rw [chunk_to_bytes_eq]
         simp only [ChunkType.code, List.cons.injEq, and_true, true_and]
         omega)

/-- Witness for C6 at the concrete values of the repository's own
round-trip tests. -/
theorem C6_round_trip_witness :
    FileHeader.from_bytes (FileHeader.to_bytes ⟨4096, 1024, 42, 43981⟩) =
      .ok ⟨4096, 1024, 42, 43981⟩ ∧
    ChunkHeader.from_bytes (ChunkHeader.to_bytes ⟨ChunkType.Fill, 8, 16⟩) =
      .ok ⟨ChunkType.Fill, 8, 16⟩ :=
  ⟨C6_round_trip.1 ⟨4096, 1024, 42, 43981⟩ (by decide) (by decide) (by decide)
     (by decide),
   C6_round_trip.2.1 ⟨ChunkType.Fill, 8, 16⟩ (by decide) (by decide)⟩

end FastbootRs

namespace FastbootRs

lemma fb_err_magic (b0 b1 b2 b3 b4 b5 b6 b7 b8 b9 b10 b11 b12 b13 b14 b15 b16
    b17 b18 b19 b20 b21 b22 b23 b24 b25 b26 b27 : Nat)
    (hm : b0 + 256 * b1 + 65536 * b2 + 16777216 * b3 ≠ HEADER_MAGIC) :
    FileHeader.from_bytes [b0, b1, b2, b3, b4, b5, b6, b7, b8, b9, b10, b11,
      b12, b13, b14, b15, b16, b17, b18, b19, b20, b21, b22, b23, b24, b25,
      b26, b27] = .error .UnknownMagic := by
  simp only [FileHeader.from_bytes]
  rw [if_pos hm]

lemma fb_err_version (b0 b1 b2 b3 b4 b5 b6 b7 b8 b9 b10 b11 b12 b13 b14 b15
    b16 b17 b18 b19 b20 b21 b22 b23 b24 b25 b26 b27 : Nat)
    (hm : b0 + 256 * b1 + 65536 * b2 + 16777216 * b3 = HEADER_MAGIC)
    (hv : b4 + 256 * b5 ≠ 1 ∨ b6 + 256 * b7 ≠ 0) :
    FileHeader.from_bytes [b0, b1, b2, b3, b4, b5, b6, b7, b8, b9, b10, b11,
      b12, b13, b14, b15, b16, b17, b18, b19, b20, b21, b22, b23, b24, b25,
      b26, b27] = .error .UnknownVersion := by
  simp only [FileHeader.from_bytes]
  rw [if_neg (not_not_intro hm)]
  by_cases h45 : b4 + 256 * b5 = 1
  · rcases hv with hv | hv
    · exact absurd h45 hv
    · rw [if_neg (not_not_intro h45), if_pos hv]
  · rw [if_pos h45]

lemma fb_err_size (b0 b1 b2 b3 b4 b5 b6 b7 b8 b9 b10 b11 b12 b13 b14 b15 b16
    b17 b18 b19 b20 b21 b22 b23 b24 b25 b26 b27 : Nat)
    (hm : b0 + 256 * b1 + 65536 * b2 + 16777216 * b3 = HEADER_MAGIC)
    (hv1 : b4 + 256 * b5 = 1) (hv2 : b6 + 256 * b7 = 0)
    (hs : b8 + 256 * b9 ≠ 28 ∨ b10 + 256 * b11 ≠ 12) :
    FileHeader.from_bytes [b0, b1, b2, b3, b4, b5, b6, b7, b8, b9, b10, b11,
      b12, b13, b14, b15, b16, b17, b18, b19, b20, b21, b22, b23, b24, b25,
      b26, b27] = .error .UnexpectedSize := by
  simp only [FileHeader.from_bytes, FILE_HEADER_BYTES_LEN, CHUNK_HEADER_BYTES_LEN]
  rw [if_neg (not_not_intro hm), if_neg (not_not_intro hv1),
    if_neg (not_not_intro hv2)]
  by_cases h89 : b8 + 256 * b9 = 28
  · rcases hs with hs | hs
    · exact absurd h89 hs
    · rw [if_neg (not_not_intro h89), if_pos hs]
  · rw [if_pos h89]

lemma fb_ok_full (b0 b1 b2 b3 b4 b5 b6 b7 b8 b9 b10 b11 b12 b13 b14 b15 b16
    b17 b18 b19 b20 b21 b22 b23 b24 b25 b26 b27 : Nat)
    (hm : b0 + 256 * b1 + 65536 * b2 + 16777216 * b3 = HEADER_MAGIC)
    (hv1 : b4 + 256 * b5 = 1) (hv2 : b6 + 256 * b7 = 0)
    (hs1 : b8 + 256 * b9 = 28) (hs2 : b10 + 256 * b11 = 12) :
    FileHeader.from_bytes [b0, b1, b2, b3, b4, b5, b6, b7, b8, b9, b10, b11,
      b12, b13, b14, b15, b16, b17, b18, b19, b20, b21, b22, b23, b24, b25,
      b26, b27] =
      .ok { block_size := b12 + 256 * b13 + 65536 * b14 + 16777216 * b15,
            blocks := b16 + 256 * b17 + 65536 * b18 + 16777216 * b19,
            chunks := b20 + 256 * b21 + 65536 * b22 + 16777216 * b23,
            checksum := b24 + 256 * b25 + 65536 * b26 + 16777216 * b27 } := by
  simp only [FileHeader.from_bytes, FILE_HEADER_BYTES_LEN, CHUNK_HEADER_BYTES_LEN]
  rw [if_neg (not_not_intro hm), if_neg (not_not_intro hv1),
    if_neg (not_not_intro hv2), if_neg (not_not_intro hs1),
    if_neg (not_not_intro hs2)]

/-- C9: `FileHeader::from_bytes` succeeds exactly when the first four
bytes are the little-endian magic, the major/minor version fields are
1/0, and the header/chunk-header size fields are 28/12; the error is
determined by the first violated check, in that order, and the last 16
bytes (block_size, blocks, chunks, checksum) never affect success,
failure, or which error is produced. -/
theorem C9_file_header_checks :
    ∀ b0 b1 b2 b3 b4 b5 b6 b7 b8 b9 b10 b11 b12 b13 b14 b15 b16 b17 b18 b19
      b20 b21 b22 b23 b24 b25 b26 b27 : Nat,
    ((∃ h, FileHeader.from_bytes [b0, b1, b2, b3, b4, b5, b6, b7, b8, b9, b10,
        b11, b12, b13, b14, b15, b16, b17, b18, b19, b20, b21, b22, b23, b24,
        b25, b26, b27] = .ok h) ↔
      (b0 + 256 * b1 + 65536 * b2 + 16777216 * b3 = HEADER_MAGIC ∧
       b4 + 256 * b5 = 1 ∧ b6 + 256 * b7 = 0 ∧
       b8 + 256 * b9 = 28 ∧ b10 + 256 * b11 = 12)) ∧
    (b0 + 256 * b1 + 65536 * b2 + 16777216 * b3 ≠ HEADER_MAGIC →
      FileHeader.from_bytes [b0, b1, b2, b3, b4, b5, b6, b7, b8, b9, b10,
        b11, b12, b13, b14, b15, b16, b17, b18, b19, b20, b21, b22, b23, b24,
        b25, b26, b27] = .error .UnknownMagic) ∧
    (b0 + 256 * b1 + 65536 * b2 + 16777216 * b3 = HEADER_MAGIC →
      (b4 + 256 * b5 ≠ 1 ∨ b6 + 256 * b7 ≠ 0) →
      FileHeader.from_bytes [b0, b1, b2, b3, b4, b5, b6, b7, b8, b9, b10,
        b11, b12, b13, b14, b15, b16, b17, b18, b19, b20, b21, b22, b23, b24,
        b25, b26, b27] = .error .UnknownVersion) ∧
    (b0 + 256 * b1 + 65536 * b2 + 16777216 * b3 = HEADER_MAGIC →
      b4 + 256 * b5 = 1 → b6 + 256 * b7 = 0 →
      (b8 + 256 * b9 ≠ 28 ∨ b10 + 256 * b11 ≠ 12) →
      FileHeader.from_bytes [b0, b1, b2, b3, b4, b5, b6, b7, b8, b9, b10,
        b11, b12, b13, b14, b15, b16, b17, b18, b19, b20, b21, b22, b23, b24,
        b25, b26, b27] = .error .UnexpectedSize) ∧
    (∀ c12 c13 c14 c15 c16 c17 c18 c19 c20 c21 c22 c23 c24 c25 c26 c27 : Nat,
      ((∃ h, FileHeader.from_bytes [b0, b1, b2, b3, b4, b5, b6, b7, b8, b9,
          b10, b11, b12, b13, b14, b15, b16, b17, b18, b19, b20, b21, b22,
          b23, b24, b25, b26, b27] = .ok h) ↔
       (∃ h, FileHeader.from_bytes [b0, b1, b2, b3, b4, b5, b6, b7, b8, b9,
          b10, b11, c12, c13, c14, c15, c16, c17, c18, c19, c20, c21, c22,
          c23, c24, c25, c26, c27] = .ok h)) ∧
      (∀ e, FileHeader.from_bytes [b0, b1, b2, b3, b4, b5, b6, b7, b8, b9,
          b10, b11, b12, b13, b14, b15, b16, b17, b18, b19, b20, b21, b22,
          b23, b24, b25, b26, b27] = .error e ↔
        FileHeader.from_bytes [b0, b1, b2, b3, b4, b5, b6, b7, b8, b9,
          b10, b11, c12, c13, c14, c15, c16, c17, c18, c19, c20, c21, c22,
          c23, c24, c25, c26, c27] = .error e)) := by
  intro b0 b1 b2 b3 b4 b5 b6 b7 b8 b9 b10 b11 b12 b13 b14 b15 b16 b17 b18 b19
    b20 b21 b22 b23 b24 b25 b26 b27
  have all_cases : ∀ c12 c13 c14 c15 c16 c17 c18 c19 c20 c21 c22 c23 c24 c25
      c26 c27 : Nat,
      (∃ e, FileHeader.from_bytes [b0, b1, b2, b3, b4, b5, b6, b7, b8, b9, b10,
        b11, c12, c13, c14, c15, c16, c17, c18, c19, c20, c21, c22, c23, c24,
        c25, c26, c27] = .error e ∧
        ¬(b0 + 256 * b1 + 65536 * b2 + 16777216 * b3 = HEADER_MAGIC ∧
          b4 + 256 * b5 = 1 ∧ b6 + 256 * b7 = 0 ∧
          b8 + 256 * b9 = 28 ∧ b10 + 256 * b11 = 12)) ∨
      (FileHeader.from_bytes [b0, b1, b2, b3, b4, b5, b6, b7, b8, b9, b10,
        b11, c12, c13, c14, c15, c16, c17, c18, c19, c20, c21, c22, c23, c24,
        c25, c26, c27] =
        .ok { block_size := c12 + 256 * c13 + 65536 * c14 + 16777216 * c15,
              blocks := c16 + 256 * c17 + 65536 * c18 + 16777216 * c19,
              chunks := c20 + 256 * c21 + 65536 * c22 + 16777216 * c23,
              checksum := c24 + 256 * c25 + 65536 * c26 + 16777216 * c27 } ∧
        (b0 + 256 * b1 + 65536 * b2 + 16777216 * b3 = HEADER_MAGIC ∧
         b4 + 256 * b5 = 1 ∧ b6 + 256 * b7 = 0 ∧
         b8 + 256 * b9 = 28 ∧ b10 + 256 * b11 = 12)) := by
    intro c12 c13 c14 c15 c16 c17 c18 c19 c20 c21 c22 c23 c24 c25 c26 c27
    by_cases hm : b0 + 256 * b1 + 65536 * b2 + 16777216 * b3 = HEADER_MAGIC
    · by_cases hv1 : b4 + 256 * b5 = 1
      · by_cases hv2 : b6 + 256 * b7 = 0
        · by_cases hs1 : b8 + 256 * b9 = 28
          · by_cases hs2 : b10 + 256 * b11 = 12
            · exact Or.inr ⟨fb_ok_full _ _ _ _ _ _ _ _ _ _ _ _ _ _ _ _ _ _ _ _
                _ _ _ _ _ _ _ _ hm hv1 hv2 hs1 hs2, hm, hv1, hv2, hs1, hs2⟩
            · exact Or.inl ⟨_, fb_err_size _ _ _ _ _ _ _ _ _ _ _ _ _ _ _ _ _ _
                _ _ _ _ _ _ _ _ _ _ hm hv1 hv2 (Or.inr hs2),
                fun hh => hs2 hh.2.2.2.2⟩
          · exact Or.inl ⟨_, fb_err_size _ _ _ _ _ _ _ _ _ _ _ _ _ _ _ _ _ _ _
              _ _ _ _ _ _ _ _ _ hm hv1 hv2 (Or.inl hs1),
              fun hh => hs1 hh.2.2.2.1⟩
        · exact Or.inl ⟨_, fb_err_version _ _ _ _ _ _ _ _ _ _ _ _ _ _ _ _ _ _ _
            _ _ _ _ _ _ _ _ _ hm (Or.inr hv2), fun hh => hv2 hh.2.2.1⟩
      · exact Or.inl ⟨_, fb_err_version _ _ _ _ _ _ _ _ _ _ _ _ _ _ _ _ _ _ _ _
          _ _ _ _ _ _ _ _ hm (Or.inl hv1), fun hh => hv1 hh.2.1⟩
    · exact Or.inl ⟨_, fb_err_magic _ _ _ _ _ _ _ _ _ _ _ _ _ _ _ _ _ _ _ _ _ _
        _ _ _ _ _ _ hm, fun hh => hm hh.1⟩
  refine ⟨?_, ?_, ?_, ?_, ?_⟩
  · constructor
    · rintro ⟨h, hok⟩
      rcases all_cases b12 b13 b14 b15 b16 b17 b18 b19 b20 b21 b22 b23 b24 b25
          b26 b27 with ⟨e, he, hnc⟩ | ⟨hok2, hc⟩
      · rw [he] at hok; exact absurd hok (by simp)
      · exact hc
    · rintro ⟨e1, e2, e3, e4, e5⟩
      exact ⟨_, fb_ok_full _ _ _ _ _ _ _ _ _ _ _ _ _ _ _ _ _ _ _ _ _ _ _ _ _ _
        _ _ e1 e2 e3 e4 e5⟩
  · exact fb_err_magic _ _ _ _ _ _ _ _ _ _ _ _ _ _ _ _ _ _ _ _ _ _ _ _ _ _ _ _
  · exact fb_err_version _ _ _ _ _ _ _ _ _ _ _ _ _ _ _ _ _ _ _ _ _ _ _ _ _ _ _ _
  · exact fb_err_size _ _ _ _ _ _ _ _ _ _ _ _ _ _ _ _ _ _ _ _ _ _ _ _ _ _ _ _
  · intro c12 c13 c14 c15 c16 c17 c18 c19 c20 c21 c22 c23 c24 c25 c26 c27
    rcases all_cases b12 b13 b14 b15 b16 b17 b18 b19 b20 b21 b22 b23 b24 b25
        b26 b27 with ⟨e, he, hnc⟩ | ⟨hokb, hc⟩ <;>
      rcases all_cases c12 c13 c14 c15 c16 c17 c18 c19 c20 c21 c22 c23 c24 c25
          c26 c27 with ⟨f, hf, hnc2⟩ | ⟨hokc, hc2⟩
    · constructor
      · rw [he, hf]
        constructor <;> (rintro ⟨h, hh⟩; exact absurd hh (by simp))
      · intro g
        rw [he, hf]
        have ef : e = f := by
          by_cases hm : b0 + 256 * b1 + 65536 * b2 + 16777216 * b3 = HEADER_MAGIC
          · by_cases hv1 : b4 + 256 * b5 = 1
            · by_cases hv2 : b6 + 256 * b7 = 0
              · by_cases hs1 : b8 + 256 * b9 = 28
                · by_cases hs2 : b10 + 256 * b11 = 12
                  · exact absurd ⟨hm, hv1, hv2, hs1, hs2⟩ hnc
                  · have e1 := fb_err_size b0 b1 b2 b3 b4 b5 b6 b7 b8 b9 b10
                      b11 b12 b13 b14 b15 b16 b17 b18 b19 b20 b21 b22 b23 b24
                      b25 b26 b27 hm hv1 hv2 (Or.inr hs2)
                    have e2 := fb_err_size b0 b1 b2 b3 b4 b5 b6 b7 b8 b9 b10
                      b11 c12 c13 c14 c15 c16 c17 c18 c19 c20 c21 c22 c23 c24
                      c25 c26 c27 hm hv1 hv2 (Or.inr hs2)
                    rw [he] at e1; rw [hf] at e2
                    simp only [Except.error.injEq] at e1 e2
                    rw [e1, e2]
                · have e1 := fb_err_size b0 b1 b2 b3 b4 b5 b6 b7 b8 b9 b10 b11
                    b12 b13 b14 b15 b16 b17 b18 b19 b20 b21 b22 b23 b24 b25
                    b26 b27 hm hv1 hv2 (Or.inl hs1)
                  have e2 := fb_err_size b0 b1 b2 b3 b4 b5 b6 b7 b8 b9 b10 b11
                    c12 c13 c14 c15 c16 c17 c18 c19 c20 c21 c22 c23 c24 c25
                    c26 c27 hm hv1 hv2 (Or.inl hs1)
                  rw [he] at e1; rw [hf] at e2
                  simp only [Except.error.injEq] at e1 e2
                  rw [e1, e2]
              · have e1 := fb_err_version b0 b1 b2 b3 b4 b5 b6 b7 b8 b9 b10 b11
                  b12 b13 b14 b15 b16 b17 b18 b19 b20 b21 b22 b23 b24 b25 b26
                  b27 hm (Or.inr hv2)
                have e2 := fb_err_version b0 b1 b2 b3 b4 b5 b6 b7 b8 b9 b10 b11
                  c12 c13 c14 c15 c16 c17 c18 c19 c20 c21 c22 c23 c24 c25 c26
                  c27 hm (Or.inr hv2)
                rw [he] at e1; rw [hf] at e2
                simp only [Except.error.injEq] at e1 e2
                rw [e1, e2]
            · have e1 := fb_err_version b0 b1 b2 b3 b4 b5 b6 b7 b8 b9 b10 b11
                b12 b13 b14 b15 b16 b17 b18 b19 b20 b21 b22 b23 b24 b25 b26
                b27 hm (Or.inl hv1)
              have e2 := fb_err_version b0 b1 b2 b3 b4 b5 b6 b7 b8 b9 b10 b11
                c12 c13 c14 c15 c16 c17 c18 c19 c20 c21 c22 c23 c24 c25 c26
                c27 hm (Or.inl hv1)
              rw [he] at e1; rw [hf] at e2
              simp only [Except.error.injEq] at e1 e2
              rw [e1, e2]
          · have e1 := fb_err_magic b0 b1 b2 b3 b4 b5 b6 b7 b8 b9 b10 b11 b12
              b13 b14 b15 b16 b17 b18 b19 b20 b21 b22 b23 b24 b25 b26 b27 hm
            have e2 := fb_err_magic b0 b1 b2 b3 b4 b5 b6 b7 b8 b9 b10 b11 c12
              c13 c14 c15 c16 c17 c18 c19 c20 c21 c22 c23 c24 c25 c26 c27 hm
            rw [he] at e1; rw [hf] at e2
            simp only [Except.error.injEq] at e1 e2
            rw [e1, e2]
        subst ef
        simp only [Except.error.injEq]
    · exact absurd hc2 hnc
    · exact absurd hc hnc2
    · constructor
      · rw [hokb, hokc]
        constructor <;> (intro _; exact ⟨_, rfl⟩)
      · intro g
        rw [hokb, hokc]
        constructor <;> (intro hh; exact absurd hh (by simp))

/-- Witness for C9: an all-zero header is rejected with `UnknownMagic`. -/
theorem C9_file_header_checks_witness :
    FileHeader.from_bytes [0, 0, 0, 0, 0, 0, 0, 0, 0, 0, 0, 0, 0, 0, 0, 0, 0,
      0, 0, 0, 0, 0, 0, 0, 0, 0, 0, 0] = .error .UnknownMagic :=
  (C9_file_header_checks 0 0 0 0 0 0 0 0 0 0 0 0 0 0 0 0 0 0 0 0 0 0 0 0 0 0
    0 0).2.1 (by decide)

end FastbootRs

namespace FastbootRs

/-! ## Download helper lemmas -/

lemma next_buffer_fields (st : DataDownload) :
    st.next_buffer.size = st.size ∧ st.next_buffer.left = st.left ∧
    st.next_buffer.max_out = st.max_out := by
  unfold DataDownload.next_buffer
  split_ifs <;> simp

lemma next_buffer_inv (st : DataDownload) (h : DLInv st) : DLInv st.next_buffer := by
  unfold DataDownload.next_buffer
  split_ifs with hc
  · exact h
  · exact ⟨rfl, by simp [allocate_buffer]⟩

lemma update_size_ok (st : DataDownload) (k : Nat) (h : k ≤ st.left) :
    st.update_size k = ({ st with left := st.left - k }, none) := by
  unfold DataDownload.update_size
  rw [if_neg (by omega)]

lemma update_size_err (st : DataDownload) (k : Nat) (h : st.left < k) :
    st.update_size k = (st, some (.IncorrectDataLength st.size
      ((k - st.left + st.size) % U32_MOD))) := by
  unfold DataDownload.update_size
  rw [if_pos h]

lemma extendLoop_props (fuel : Nat) :
    ∀ (data : List Nat) (st st' : DataDownload), DLInv st →
      extendLoop fuel st data = some st' →
      DLInv st' ∧ st'.size = st.size ∧ st'.left = st.left ∧
      st'.max_out = st.max_out := by
  induction fuel with
  | zero => intro data st st' _ h; exact absurd h (by simp [extendLoop])
  | succ n ih =>
    intro data st st' hinv h
    rw [extendLoop] at h
    split_ifs at h with hfit
    · cases h
      refine ⟨⟨hinv.1, ?_⟩, rfl, rfl, rfl⟩
      have h2 := hinv.2
      simp only [List.length_append]
      omega
    · set q := st.current.cap - st.current.data.length with hq
      set stM : DataDownload :=
        { st with current := { st.current with
            data := st.current.data ++ data.take q } } with hstM
      have hMinv : DLInv stM := by
        refine ⟨hinv.1, ?_⟩
        show (st.current.data ++ data.take q).length ≤ st.current.cap
        have h2 := hinv.2
        simp only [List.length_append, List.length_take]
        omega
      obtain ⟨i1, i2, i3, i4⟩ :=
        ih (data.drop q) stM.next_buffer st' (next_buffer_inv stM hMinv) h
      have nf := next_buffer_fields stM
      refine ⟨i1, ?_, ?_, ?_⟩
      · rw [i2, nf.1]
      · rw [i3, nf.2.1]
      · rw [i4, nf.2.2]

end FastbootRs

namespace FastbootRs

lemma extendLoop_total_empty (fuel : Nat) :
    ∀ (data : List Nat) (st : DataDownload), DLInv st → st.current.data = [] →
      0 < st.current.cap → data.length + 1 ≤ fuel →
      (extendLoop fuel st data).isSome := by
  induction fuel with
  | zero => intro data st _ _ _ h; omega
  | succ n ih =>
    intro data st hinv hempty hcap hfuel
    rw [extendLoop]
    split_ifs with hfit
    · simp
    · set q := st.current.cap - st.current.data.length with hq
      set stM : DataDownload :=
        { st with current := { st.current with
            data := st.current.data ++ data.take q } } with hstM
      have hqcap : q = st.current.cap := by
        rw [hq, hempty]
        simp
      have hgt : st.current.cap < data.length := by
        rw [hqcap] at hfit
        omega
      have hfull : stM.current.data.length = st.current.cap := by
        rw [hstM]
        show (st.current.data ++ data.take q).length = st.current.cap
        rw [hempty]
        simp only [List.length_nil, List.nil_append, List.length_take, hqcap]
        omega
      have hsub : stM.next_buffer =
          { stM with
            current := allocate_buffer stM.max_out,
            sent := stM.sent ++ [stM.current] } := by
        unfold DataDownload.next_buffer
        rw [if_neg (by rw [hfull]; omega)]
      rw [hsub]
      apply ih
      · exact ⟨rfl, by simp [allocate_buffer]⟩
      · rfl
      · show 0 < (allocate_buffer stM.max_out).cap
        have := hinv.1
        rw [show stM.max_out = st.max_out from rfl, ← this]
        exact hcap
      · simp only [List.length_drop]
        omega

lemma extendLoop_total (data : List Nat) (st : DataDownload) (hinv : DLInv st)
    (hcap : 0 < st.current.cap) :
    (extendLoop (data.length + 2) st data).isSome := by
  rw [extendLoop]
  split_ifs with hfit
  · simp
  · set q := st.current.cap - st.current.data.length with hq
    set stM : DataDownload :=
      { st with current := { st.current with
          data := st.current.data ++ data.take q } } with hstM
    have hfull : stM.current.data.length = st.current.cap := by
      rw [hstM]
      show (st.current.data ++ data.take q).length = st.current.cap
      have h2 := hinv.2
      simp only [List.length_append, List.length_take]
      omega
    have hsub : stM.next_buffer =
        { stM with
          current := allocate_buffer stM.max_out,
          sent := stM.sent ++ [stM.current] } := by
      unfold DataDownload.next_buffer
      rw [if_neg (by rw [hfull]; omega)]
    rw [hsub]
    apply extendLoop_total_empty
    · exact ⟨rfl, by simp [allocate_buffer]⟩
    · rfl
    · show 0 < (allocate_buffer stM.max_out).cap
      have := hinv.1
      rw [show stM.max_out = st.max_out from rfl, ← this]
      exact hcap
    · simp only [List.length_drop]
      omega

end FastbootRs

namespace FastbootRs

lemma extend_eq_ok (st : DataDownload) (data : List Nat)
    (hlt : data.length < U32_MOD) (hle : data.length ≤ st.left) :
    st.extend_from_slice data =
      (extendLoop (data.length + 2) { st with left := st.left - data.length }
        data).map (fun s => (s, none)) := by
  unfold DataDownload.extend_from_slice
  rw [Nat.mod_eq_of_lt hlt, update_size_ok st _ hle]

lemma extend_eq_err (st : DataDownload) (data : List Nat)
    (hlt : data.length < U32_MOD) (hgt : st.left < data.length) :
    st.extend_from_slice data =
      some (st, some (.IncorrectDataLength st.size
        ((data.length - st.left + st.size) % U32_MOD))) := by
  unfold DataDownload.extend_from_slice
  rw [Nat.mod_eq_of_lt hlt, update_size_err st _ hgt]

lemma extend_ok_props (st : DataDownload) (data : List Nat) (st2 : DataDownload)
    (hinv : DLInv st) (hlt : data.length < U32_MOD)
    (hx : st.extend_from_slice data = some (st2, none)) :
    data.length ≤ st.left ∧ DLInv st2 ∧ st2.size = st.size ∧
    st2.max_out = st.max_out ∧ st2.left = st.left - data.length := by
  by_cases hle : data.length ≤ st.left
  · rw [extend_eq_ok st data hlt hle] at hx
    rcases hmap : extendLoop (data.length + 2)
        { st with left := st.left - data.length } data with _ | st3
    · rw [hmap] at hx
      simp at hx
    · rw [hmap] at hx
      simp only [Option.map_some', Option.some.injEq, Prod.mk.injEq] at hx
      obtain ⟨i1, i2, i3, i4⟩ := extendLoop_props _ data
        { st with left := st.left - data.length } st3 ⟨hinv.1, hinv.2⟩ hmap
      rw [← hx.1]
      exact ⟨hle, i1, i2, i4, i3⟩
  · rw [extend_eq_err st data hlt (by omega)] at hx
    simp at hx

lemma get_mut_ok_props (st : DataDownload) (max : Nat) (st2 : DataDownload)
    (k : Nat) (hinv : DLInv st) (hcap : (allocate_buffer st.max_out).cap < U32_MOD)
    (hx : st.get_mut_data max = ((st2, k), none)) :
    k ≤ st.left ∧ DLInv st2 ∧ st2.size = st.size ∧ st2.max_out = st.max_out ∧
    st2.left = st.left - k := by
  unfold DataDownload.get_mut_data at hx
  set stM : DataDownload :=
    if st.current.cap = st.current.data.length then st.next_buffer else st with hstM
  have hMinv : DLInv stM := by
    rw [hstM]
    split_ifs with hfull
    · exact next_buffer_inv st hinv
    · exact hinv
  have hMfields : stM.size = st.size ∧ stM.left = st.left ∧
      stM.max_out = st.max_out := by
    rw [hstM]
    split_ifs with hfull
    · exact ⟨(next_buffer_fields st).1, (next_buffer_fields st).2.1,
        (next_buffer_fields st).2.2⟩
    · exact ⟨rfl, rfl, rfl⟩
  have hgrant : getMutGrant stM max < U32_MOD := by
    unfold getMutGrant
    have hc := hMinv.1
    have : stM.current.cap - stM.current.data.length ≤ stM.current.cap :=
      Nat.sub_le _ _
    have : stM.current.cap = (allocate_buffer st.max_out).cap := by
      rw [hc, hMfields.2.2]
    omega
  unfold getMutAfter at hx
  rw [Nat.mod_eq_of_lt hgrant] at hx
  by_cases hle : getMutGrant stM max ≤ stM.left
  · rw [update_size_ok stM _ hle] at hx
    simp only [Prod.mk.injEq] at hx
    obtain ⟨⟨h1, h2⟩, _⟩ := hx
    rw [← h1, ← h2]
    refine ⟨by omega, ?_, hMfields.1, hMfields.2.2, by rw [hMfields.2.1]⟩
    · refine ⟨hMinv.1, ?_⟩
      show (stM.current.data ++ List.replicate (getMutGrant stM max) 0).length ≤
        stM.current.cap
      have h2 := hMinv.2
      have : getMutGrant stM max ≤ stM.current.cap - stM.current.data.length :=
        Nat.min_le_left _ _
      simp only [List.length_append, List.length_replicate]
      omega
  · rw [update_size_err stM _ (by omega)] at hx
    simp at hx

lemma get_mut_err_props (st : DataDownload) (max : Nat) (st2 : DataDownload)
    (k : Nat) (e : DownloadError)
    (hx : st.get_mut_data max = ((st2, k), some e)) :
    st2.left = st.left ∧ st2.size = st.size ∧ k = 0 := by
  unfold DataDownload.get_mut_data at hx
  set stM : DataDownload :=
    if st.current.cap = st.current.data.length then st.next_buffer else st with hstM
  have hMfields : stM.size = st.size ∧ stM.left = st.left := by
    rw [hstM]
    split_ifs with hfull
    · exact ⟨(next_buffer_fields st).1, (next_buffer_fields st).2.1⟩
    · exact ⟨rfl, rfl⟩
  unfold getMutAfter at hx
  by_cases hle : getMutGrant stM max % U32_MOD ≤ stM.left
  · rw [update_size_ok stM _ hle] at hx
    simp at hx
  · rw [update_size_err stM _ (by omega)] at hx
    simp only [Prod.mk.injEq] at hx
    obtain ⟨⟨h1, h2⟩, _⟩ := hx
    rw [← h1, ← h2]
    exact ⟨hMfields.2, hMfields.1, rfl⟩

end FastbootRs

namespace FastbootRs

lemma runOps_extend_step (ops : List DLOp) (st : DataDownload) (t : Nat)
    (data : List Nat) (st2 : DataDownload)
    (hx : st.extend_from_slice data = some (st2, none)) :
    runOps (.extend data :: ops) st t = runOps ops st2 (t + data.length) := by
  simp only [runOps]
  rw [hx]

lemma runOps_extend_err (ops : List DLOp) (st : DataDownload) (t : Nat)
    (data : List Nat) (st2 : DataDownload) (e : DownloadError)
    (hx : st.extend_from_slice data = some (st2, some e)) :
    runOps (.extend data :: ops) st t = some (st2, t + data.length, some e) := by
  simp only [runOps]
  rw [hx]

lemma runOps_getMut_step (ops : List DLOp) (st : DataDownload) (t : Nat)
    (max : Nat) (st2 : DataDownload) (k : Nat)
    (hx : st.get_mut_data max = ((st2, k), none)) :
    runOps (.getMut max :: ops) st t = runOps ops st2 (t + k) := by
  simp only [runOps]
  rw [hx]

lemma runOps_getMut_err (ops : List DLOp) (st : DataDownload) (t : Nat)
    (max : Nat) (st2 : DataDownload) (k : Nat) (e : DownloadError)
    (hx : st.get_mut_data max = ((st2, k), some e)) :
    runOps (.getMut max :: ops) st t = some (st2, t + k, some e) := by
  simp only [runOps]
  rw [hx]

lemma runOps_acc (ops : List DLOp) :
    ∀ (st : DataDownload) (t : Nat) (st' : DataDownload) (T : Nat),
      DLInv st → (allocate_buffer st.max_out).cap < U32_MOD →
      (∀ op ∈ ops, opLen op < U32_MOD) →
      runOps ops st t = some (st', T, none) →
      st'.size = st.size ∧ st'.max_out = st.max_out ∧ DLInv st' ∧
      t ≤ T ∧ T - t ≤ st.left ∧ st'.left = st.left - (T - t) := by
  induction ops with
  | nil =>
    intro st t st' T hinv hcap hops h
    simp only [runOps, Option.some.injEq, Prod.mk.injEq] at h
    obtain ⟨h1, h2, _⟩ := h
    rw [← h1, ← h2]
    simp [hinv]
  | cons op ops ih =>
    intro st t st' T hinv hcap hops h
    cases op with
    | extend data =>
      have hlen : data.length < U32_MOD := hops (.extend data) (by simp)
      rcases hx : st.extend_from_slice data with _ | ⟨st2, err⟩
      · rw [runOps, hx] at h
        simp at h
      · cases err with
        | some e =>
          rw [runOps_extend_err ops st t data st2 e hx] at h
          simp at h
        | none =>
          rw [runOps_extend_step ops st t data st2 hx] at h
          obtain ⟨g0, g1, g2, g3, g4⟩ := extend_ok_props st data st2 hinv hlen hx
          obtain ⟨i1, i2, i3, i4, i5, i6⟩ := ih st2 (t + data.length) st' T g1
            (by rw [g3]; exact hcap)
            (fun op hop => hops op (List.mem_cons_of_mem _ hop)) h
          refine ⟨by rw [i1, g2], by rw [i2, g3], i3, by omega, by omega, ?_⟩
          rw [i6, g4]
          omega
    | getMut max =>
      rcases hx : st.get_mut_data max with ⟨⟨st2, k⟩, err⟩
      cases err with
      | some e =>
        rw [runOps_getMut_err ops st t max st2 k e hx] at h
        simp at h
      | none =>
        rw [runOps_getMut_step ops st t max st2 k hx] at h
        obtain ⟨g0, g1, g2, g3, g4⟩ := get_mut_ok_props st max st2 k hinv hcap hx
        obtain ⟨i1, i2, i3, i4, i5, i6⟩ := ih st2 (t + k) st' T g1
          (by rw [g3]; exact hcap)
          (fun op hop => hops op (List.mem_cons_of_mem _ hop)) h
        refine ⟨by rw [i1, g2], by rw [i2, g3], i3, by omega, by omega, ?_⟩
        rw [i6, g4]
        omega

end FastbootRs

namespace FastbootRs

lemma extend_ok_exists (st : DataDownload) (data : List Nat) (hinv : DLInv st)
    (hcap : 0 < st.current.cap) (hmod : data.length % U32_MOD ≤ st.left) :
    ∃ st', st.extend_from_slice data = some (st', none) := by
  unfold DataDownload.extend_from_slice
  rw [update_size_ok _ _ hmod]
  obtain ⟨st3, h3⟩ := Option.isSome_iff_exists.mp
    (extendLoop_total data
      { st with left := st.left - data.length % U32_MOD } ⟨hinv.1, hinv.2⟩ hcap)
  refine ⟨st3, ?_⟩
  show (extendLoop (data.length + 2)
      { st with left := st.left - data.length % U32_MOD } data).map
      (fun s => (s, none)) = some (st3, none)
  rw [h3]
  rfl


/-- C4 (amended: each call must transfer fewer than `2^32` bytes, because
the source casts the slice length to `u32`, which truncates; and the
overshoot total `T + len` must itself stay below `2^32`, because the u32
error expression `size - self.left + self.size` wraps in release builds
and panics in debug builds): for a download of announced size `n`, after
any successful sequence of `extend_from_slice`/`get_mut_data` calls
consuming `T` bytes in total, `size()` is still `n` and
`left() = n - T`; an `extend_from_slice` whose bytes would push the
running total past `n` returns
`IncorrectDataLength { expected: n, actual: T + len }` (the total
including the failing call); in particular for `n = 10`, extending by 6
then by 5 bytes yields `IncorrectDataLength { expected: 10, actual: 11 }`. -/
theorem C4_download_accounting :
    (∀ (n mo : Nat) (ops : List DLOp) (st : DataDownload) (T : Nat),
      (allocate_buffer mo).cap < U32_MOD →
      (∀ op ∈ ops, opLen op < U32_MOD) →
      runOps ops (DataDownload.new n mo) 0 = some (st, T, none) →
      st.size = n ∧ T ≤ n ∧ st.left = n - T) ∧
    (∀ (n mo : Nat) (ops : List DLOp) (st : DataDownload) (T : Nat)
       (data : List Nat),
      (allocate_buffer mo).cap < U32_MOD →
      (∀ op ∈ ops, opLen op < U32_MOD) →
      runOps ops (DataDownload.new n mo) 0 = some (st, T, none) →
      data.length < U32_MOD → st.left < data.length →
      T + data.length < U32_MOD →
      st.extend_from_slice data =
        some (st, some (.IncorrectDataLength n (T + data.length)))) ∧
    (runOps [.extend (List.replicate 6 0), .extend (List.replicate 5 0)]
        (DataDownload.new 10 512) 0 =
      some (⟨10, 4, 512, ⟨1048576, List.replicate 6 0⟩, []⟩, 11,
        some (.IncorrectDataLength 10 11))) := by
  have main : ∀ (n mo : Nat) (ops : List DLOp) (st : DataDownload) (T : Nat),
      (allocate_buffer mo).cap < U32_MOD →
      (∀ op ∈ ops, opLen op < U32_MOD) →
      runOps ops (DataDownload.new n mo) 0 = some (st, T, none) →
      st.size = n ∧ T ≤ n ∧ st.left = n - T := by
    intro n mo ops st T hcap hops h
    obtain ⟨i1, i2, i3, i4, i5, i6⟩ :=
      runOps_acc ops (DataDownload.new n mo) 0 st T ⟨rfl, Nat.zero_le _⟩
        hcap hops h
    have e1 : (DataDownload.new n mo).size = n := rfl
    have e2 : (DataDownload.new n mo).left = n := rfl
    refine ⟨by rw [i1, e1], by omega, ?_⟩
    rw [i6, e2]
    omega
  refine ⟨main, ?_, ?_⟩
  · intro n mo ops st T data hcap hops h hlt hover hnof
    obtain ⟨s1, s2, s3⟩ := main n mo ops st T hcap hops h
    rw [extend_eq_err st data hlt hover]
    have hA : data.length - st.left + st.size = T + data.length := by omega
    rw [hA, s1, Nat.mod_eq_of_lt hnof]
  · rfl

theorem C4_download_accounting_witness :
    (⟨10, 4, 512, ⟨1048576, List.replicate 6 0⟩, []⟩ : DataDownload).size = 10 ∧
    6 ≤ 10 ∧
    (⟨10, 4, 512, ⟨1048576, List.replicate 6 0⟩, []⟩ : DataDownload).left =
      10 - 6 :=
  C4_download_accounting.1 10 512 [.extend (List.replicate 6 0)] _ 6
    (by decide)
    (by
      intro op hop
      rw [List.mem_singleton] at hop
      subst hop
      simp only [opLen, List.length_replicate, U32_MOD]
      norm_num)
    rfl

/-- Counterexample to C4 as stated.  (a) A single `extend_from_slice` of
`2^32` bytes on a download of size 10 succeeds (error component `none`)
even though its length exceeds `left()`: `data.len() as u32` wraps to 0,
so the claimed `IncorrectDataLength` error does not fire.  (b) After
queueing 6 of 10 bytes, an overshooting slice of `2^32 - 1` bytes (below
the `as u32` cast's limit) makes the true total `T + len = 2^32 + 5`
overflow the u32 `actual` expression: release builds report `actual = 5`
(as the model shows), debug builds panic — the claimed
`actual = T + len` is never returned. -/
theorem C4_counterexample :
    (((DataDownload.new 10 512).extend_from_slice
        (List.replicate (2 ^ 32) 0)).map (fun r => r.2) = some none ∧
      (DataDownload.new 10 512).left <
        (List.replicate (2 ^ 32) (0 : Nat)).length) ∧
    (runOps [.extend (List.replicate 6 0)] (DataDownload.new 10 512) 0 =
        some (⟨10, 4, 512, ⟨1048576, List.replicate 6 0⟩, []⟩, 6, none) ∧
      (⟨10, 4, 512, ⟨1048576, List.replicate 6 0⟩, []⟩ :
          DataDownload).extend_from_slice (List.replicate (2 ^ 32 - 1) 0) =
        some (⟨10, 4, 512, ⟨1048576, List.replicate 6 0⟩, []⟩,
          some (.IncorrectDataLength 10 5)) ∧
      (5 : Nat) ≠ 6 + (2 ^ 32 - 1)) := by
  refine ⟨⟨?_, ?_⟩, rfl, ?_, by decide⟩
  · obtain ⟨st2, hx⟩ := extend_ok_exists (DataDownload.new 10 512)
      (List.replicate (2 ^ 32) 0) ⟨rfl, Nat.zero_le _⟩ (by decide)
      (by
        simp only [List.length_replicate]
        have hmod : 2 ^ 32 % U32_MOD = 0 := by norm_num [U32_MOD]
        rw [hmod]
        exact Nat.zero_le _)
    rw [hx]
    rfl
  · simp only [List.length_replicate]
    show (10 : Nat) < 2 ^ 32
    norm_num
  · have he := extend_eq_err
      (⟨10, 4, 512, ⟨1048576, List.replicate 6 0⟩, []⟩ : DataDownload)
      (List.replicate (2 ^ 32 - 1) 0)
      (by simp only [List.length_replicate, U32_MOD]; norm_num)
      (by
        simp only [List.length_replicate]
        show (4 : Nat) < 2 ^ 32 - 1
        norm_num)
    rw [he]
    simp only [List.length_replicate, U32_MOD]
    norm_num

/-- C10 (amended: the slice must be shorter than `2^32` bytes, because
the source casts the slice length to `u32`; and the reported total
`len - left + size` must stay below `2^32`, because the u32 `actual`
expression wraps in release builds and panics in debug builds):
overshoot errors are atomic — an overshooting `extend_from_slice`
returns the `IncorrectDataLength` error together with the state exactly
as it was before the call (`left`, the buffer contents, and the
submitted transfers all unchanged: the result state is literally the
input state), and an overshooting `get_mut_data` leaves `left()`
unchanged and grants no bytes. -/
theorem C10_overshoot_atomic :
    (∀ (st : DataDownload) (data : List Nat), data.length < U32_MOD →
      st.left < data.length →
      data.length - st.left + st.size < U32_MOD →
      st.extend_from_slice data =
        some (st, some (.IncorrectDataLength st.size
          (data.length - st.left + st.size)))) ∧
    (∀ (st : DataDownload) (max : Nat) (st2 : DataDownload) (k : Nat)
       (e : DownloadError), st.get_mut_data max = ((st2, k), some e) →
      st2.left = st.left ∧ k = 0) := by
  constructor
  · intro st data h1 h2 h3
    have he := extend_eq_err st data h1 h2
    rw [Nat.mod_eq_of_lt h3] at he
    exact he
  · intro st max st2 k e hx
    obtain ⟨a, _, c⟩ := get_mut_err_props st max st2 k e hx
    exact ⟨a, c⟩

theorem C10_overshoot_atomic_witness :
    (DataDownload.new 3 512).extend_from_slice (List.replicate 4 0) =
      some (DataDownload.new 3 512, some (.IncorrectDataLength 3 4)) :=
  C10_overshoot_atomic.1 (DataDownload.new 3 512) (List.replicate 4 0)
    (by simp only [List.length_replicate, U32_MOD]; norm_num)
    (by simp only [List.length_replicate]; decide)
    (by decide)

/-- Counterexample to C10 as stated.  (a) An `extend_from_slice` of
`2^32` bytes on a download of size 5 does not return
`IncorrectDataLength` at all (the `as u32` cast wraps the length to 0),
so the claim fails for slices of length `≥ 2^32`.  (b) On a reachable
state with `size = 10`, `left = 4`, a `(2^32 - 1)`-byte slice (inside
the `len < 2^32` domain) overflows the u32 `actual` expression
`len - left + size = 2^32 + 5`: release builds report `actual = 5`,
debug builds panic — never the claimed exact value. -/
theorem C10_counterexample :
    (((DataDownload.new 5 512).extend_from_slice
        (List.replicate (2 ^ 32) 0)).map (fun r => r.2) = some none ∧
      (DataDownload.new 5 512).left <
        (List.replicate (2 ^ 32) (0 : Nat)).length) ∧
    (((⟨10, 4, 512, ⟨1048576, List.replicate 6 0⟩, []⟩ :
          DataDownload).extend_from_slice
        (List.replicate (2 ^ 32 - 1) 0)).map (fun r => r.2) =
      some (some (.IncorrectDataLength 10 5)) ∧
      (5 : Nat) ≠ (2 ^ 32 - 1) - 4 + 10) := by
  refine ⟨⟨?_, ?_⟩, ?_, by decide⟩
  · obtain ⟨st2, hx⟩ := extend_ok_exists (DataDownload.new 5 512)
      (List.replicate (2 ^ 32) 0) ⟨rfl, Nat.zero_le _⟩ (by decide)
      (by
        simp only [List.length_replicate]
        have hmod : 2 ^ 32 % U32_MOD = 0 := by norm_num [U32_MOD]
        rw [hmod]
        exact Nat.zero_le _)
    rw [hx]
    rfl
  · simp only [List.length_replicate]
    show (5 : Nat) < 2 ^ 32
    norm_num
  · have he := extend_eq_err
      (⟨10, 4, 512, ⟨1048576, List.replicate 6 0⟩, []⟩ : DataDownload)
      (List.replicate (2 ^ 32 - 1) 0)
      (by simp only [List.length_replicate, U32_MOD]; norm_num)
      (by
        simp only [List.length_replicate]
        show (4 : Nat) < 2 ^ 32 - 1
        norm_num)
    rw [he]
    simp only [List.length_replicate, U32_MOD, Option.map_some']
    norm_num

/-- C7: calling `finish()` with `left() ≠ 0` returns
`IncorrectDataLength { expected: size, actual: size - left }` without
submitting the partial buffer (`sent` unchanged) and without reading
any protocol response; on a state reached from a fresh download of
size `n` by calls that queued `T` bytes in total, the `actual` field
equals `T`, the bytes actually queued. -/
theorem C7_finish_undershoot :
    (∀ st : DataDownload, st.left ≠ 0 →
      st.finish =
        { err := some (.IncorrectDataLength st.size (st.size - st.left)),
          sent := st.sent, responses_read := false }) ∧
    (∀ (n mo : Nat) (ops : List DLOp) (st : DataDownload) (T : Nat),
      (allocate_buffer mo).cap < U32_MOD →
      (∀ op ∈ ops, opLen op < U32_MOD) →
      runOps ops (DataDownload.new n mo) 0 = some (st, T, none) →
      st.left ≠ 0 →
      st.finish =
        { err := some (.IncorrectDataLength n T),
          sent := st.sent, responses_read := false }) := by
  constructor
  · intro st h
    unfold DataDownload.finish
    rw [if_pos h]
  · intro n mo ops st T hcap hops hrun hne
    obtain ⟨i1, i2, i3, i4, i5, i6⟩ :=
      runOps_acc ops (DataDownload.new n mo) 0 st T ⟨rfl, Nat.zero_le _⟩
        hcap hops hrun
    have e1 : (DataDownload.new n mo).size = n := rfl
    have e2 : (DataDownload.new n mo).left = n := rfl
    rw [e1] at i1
    rw [e2] at i5 i6
    unfold DataDownload.finish
    rw [if_pos hne]
    have hl : st.size - st.left = T := by omega
    rw [hl, i1]

theorem C7_finish_undershoot_witness :
    (⟨10, 4, 512, ⟨1048576, List.replicate 6 0⟩, []⟩ : DataDownload).finish =
      { err := some (.IncorrectDataLength 10 6), sent := [],
        responses_read := false } :=
  C7_finish_undershoot.2 10 512 [.extend (List.replicate 6 0)] _ 6
    (by decide)
    (by
      intro op hop
      rw [List.mem_singleton] at hop
      subst hop
      simp only [opLen, List.length_replicate, U32_MOD]
      norm_num)
    rfl
    (by decide)

end FastbootRs

namespace FastbootRs

/-! ## Split planner lemmas -/

lemma sumSplitSizes_append (xs : List Split) (s : Split) :
    sumSplitSizes (xs ++ [s]) =
      sumSplitSizes xs + (s.chunks.map (fun c => c.size)).sum := by
  simp [sumSplitSizes]

lemma finish_chunks (b : SplitBuilder) : b.finish.chunks = b.chunks := rfl

lemma finish_sparse (b : SplitBuilder) :
    b.finish.sparse_size = FILE_HEADER_BYTES_LEN + chunksTotal b := rfl

lemma finish_sizes (b : SplitBuilder) :
    (b.finish.chunks.map (fun c => c.size)).sum = sumSizesB b := rfl

lemma new_chunks (bs size v : Nat) :
    (SplitBuilder.new bs size v).chunks = synth v := by
  unfold SplitBuilder.new synth
  split_ifs <;> rfl

lemma new_block_size (bs size v : Nat) :
    (SplitBuilder.new bs size v).block_size = bs := by
  unfold SplitBuilder.new
  split_ifs <;> rfl

lemma new_sizesB (bs size v : Nat) : sumSizesB (SplitBuilder.new bs size v) = 0 := by
  rw [sumSizesB, new_chunks]
  unfold synth
  split_ifs <;> simp

lemma new_space_eq (bs size v : Nat) (h : 40 ≤ size) :
    FILE_HEADER_BYTES_LEN + chunksTotal (SplitBuilder.new bs size v) +
      (SplitBuilder.new bs size v).space = size := by
  unfold SplitBuilder.new
  split_ifs with hv
  · simp only [chunksTotal, List.map_nil, List.sum_nil, FILE_HEADER_BYTES_LEN]
    omega
  · simp only [chunksTotal, List.map_cons, List.map_nil, List.sum_cons,
      List.sum_nil, ChunkHeader.new_dontcare, FILE_HEADER_BYTES_LEN,
      CHUNK_HEADER_BYTES_LEN]
    omega

lemma skel_append (v : Nat) (b : SplitBuilder) (sc : SplitChunk) (sp : Nat)
    (hskel : BuilderSkel v b) (hoff : sc.offset ≠ 0) :
    BuilderSkel v { b with chunks := b.chunks ++ [sc], space := sp } := by
  obtain ⟨rest, hr, hall⟩ := hskel
  refine ⟨rest ++ [sc], ?_, ?_⟩
  · show b.chunks ++ [sc] = synth v ++ (rest ++ [sc])
    rw [hr, List.append_assoc]
  · intro c hc
    rcases List.mem_append.mp hc with h | h
    · exact hall c h
    · rw [List.mem_singleton] at h
      subst h
      exact hoff

lemma liveB_append (b : SplitBuilder) (sc : SplitChunk) (sp : Nat)
    (hoff : sc.offset ≠ 0) :
    liveBlocksB { b with chunks := b.chunks ++ [sc], space := sp } =
      liveBlocksB b + sc.header.chunk_size := by
  simp only [liveBlocksB, List.filter_append, List.map_append, List.sum_append]
  have ht : (sc.offset != 0) = true := by simpa using hoff
  simp [List.filter, ht]

lemma chunksTotal_append (b : SplitBuilder) (sc : SplitChunk) (sp : Nat) :
    chunksTotal { b with chunks := b.chunks ++ [sc], space := sp } =
      chunksTotal b + sc.header.total_size := by
  simp [chunksTotal]

lemma sumSizesB_append (b : SplitBuilder) (sc : SplitChunk) (sp : Nat) :
    sumSizesB { b with chunks := b.chunks ++ [sc], space := sp } =
      sumSizesB b + sc.size := by
  simp [sumSizesB]

lemma try_add_some (b : SplitBuilder) (c : ChunkHeader) (io : Nat)
    (b2 : SplitBuilder) (h : b.try_add_chunk c io = some b2) :
    c.total_size < b.space ∧
    b2 = { b with
           chunks := b.chunks ++ [⟨c, io, c.data_size⟩],
           space := b.space - c.total_size } := by
  unfold SplitBuilder.try_add_chunk at h
  split_ifs at h with hlt
  simp only [Option.some.injEq] at h
  exact ⟨hlt, h.symm⟩

lemma try_add_none (b : SplitBuilder) (c : ChunkHeader) (io : Nat)
    (h : b.try_add_chunk c io = none) : b.space ≤ c.total_size := by
  unfold SplitBuilder.try_add_chunk at h
  split_ifs at h with hlt
  omega

lemma add_raw_spec (b : SplitBuilder) (io rem added : Nat) (b2 : SplitBuilder)
    (h : b.add_raw io rem = some (added, b2)) :
    b.block_size ≠ 0 ∧
    ((added = 0 ∧ b2 = b ∧ (b.space - CHUNK_HEADER_BYTES_LEN) / b.block_size = 0) ∨
     (0 < (b.space - CHUNK_HEADER_BYTES_LEN) / b.block_size ∧
      added = min rem ((b.space - CHUNK_HEADER_BYTES_LEN) / b.block_size) ∧
      b2 = { b with
             space := b.space - (ChunkHeader.new_raw added b.block_size).total_size,
             chunks := b.chunks ++
               [⟨ChunkHeader.new_raw added b.block_size, io,
                 (ChunkHeader.new_raw added b.block_size).data_size⟩] })) := by
  unfold SplitBuilder.add_raw at h
  split_ifs at h with hz
  by_cases hbl : 0 < (b.space - CHUNK_HEADER_BYTES_LEN) / b.block_size
  · rw [if_pos hbl] at h
    simp only [Option.some.injEq, Prod.mk.injEq] at h
    refine ⟨hz, Or.inr ⟨hbl, h.1.symm, ?_⟩⟩
    rw [← h.2, ← h.1]
  · rw [if_neg hbl] at h
    simp only [Option.some.injEq, Prod.mk.injEq] at h
    exact ⟨hz, Or.inl ⟨h.1.symm, h.2.symm, Nat.eq_zero_of_not_pos hbl⟩⟩

end FastbootRs

namespace FastbootRs

lemma new_raw_total_le (added bs space : Nat)
    (hbl : 0 < (space - CHUNK_HEADER_BYTES_LEN) / bs)
    (hadd : added ≤ (space - CHUNK_HEADER_BYTES_LEN) / bs) :
    (ChunkHeader.new_raw added bs).total_size ≤ space := by
  have h1 : added * bs ≤ space - CHUNK_HEADER_BYTES_LEN := by
    calc added * bs ≤ ((space - CHUNK_HEADER_BYTES_LEN) / bs) * bs :=
          Nat.mul_le_mul_right _ hadd
      _ ≤ space - CHUNK_HEADER_BYTES_LEN := Nat.div_mul_le_self _ _
  have h2 : CHUNK_HEADER_BYTES_LEN < space := by
    by_contra hc
    push_neg at hc
    rw [Nat.sub_eq_zero_of_le hc] at hbl
    simp at hbl
  simp only [ChunkHeader.new_raw, satU32, CHUNK_HEADER_BYTES_LEN, U32_MAX] at *
  omega

lemma new_raw_exact (added bs sp size : Nat)
    (hx : added * bs ≤ sp - CHUNK_HEADER_BYTES_LEN)
    (hsp : sp + FILE_HEADER_BYTES_LEN ≤ size) (hsize : size < U32_MOD) :
    (ChunkHeader.new_raw added bs).total_size =
      CHUNK_HEADER_BYTES_LEN + added * bs ∧
    (ChunkHeader.new_raw added bs).data_size = added * bs := by
  simp only [ChunkHeader.new_raw, ChunkHeader.data_size, satU32,
    CHUNK_HEADER_BYTES_LEN, FILE_HEADER_BYTES_LEN, U32_MOD, U32_MAX] at *
  omega

lemma add_raw_push (b : SplitBuilder) (io rem added : Nat) (b2 : SplitBuilder)
    (size : Nat) (hio : io ≠ 0)
    (hsp : FILE_HEADER_BYTES_LEN + chunksTotal b + b.space = size)
    (h : b.add_raw io rem = some (added, b2)) :
    added ≤ rem ∧
    b2.block_size = b.block_size ∧
    FILE_HEADER_BYTES_LEN + chunksTotal b2 + b2.space = size ∧
    liveBlocksB b2 = liveBlocksB b + added ∧
    (∀ v, BuilderSkel v b → BuilderSkel v b2) ∧
    (size < U32_MOD → sumSizesB b2 = sumSizesB b + added * b.block_size) := by
  obtain ⟨hz, hcase⟩ := add_raw_spec b io rem added b2 h
  rcases hcase with ⟨ha0, hb, _⟩ | ⟨hbl, hadd, hb⟩
  · subst hb
    subst ha0
    exact ⟨Nat.zero_le _, rfl, hsp, by omega, fun v hv => hv,
      fun _ => by omega⟩
  · have hle : added ≤ (b.space - CHUNK_HEADER_BYTES_LEN) / b.block_size := by
      rw [hadd]; exact Nat.min_le_right _ _
    have htot := new_raw_total_le added b.block_size b.space hbl hle
    have hmul : added * b.block_size ≤ b.space - CHUNK_HEADER_BYTES_LEN := by
      calc added * b.block_size ≤
            ((b.space - CHUNK_HEADER_BYTES_LEN) / b.block_size) * b.block_size :=
            Nat.mul_le_mul_right _ hle
        _ ≤ b.space - CHUNK_HEADER_BYTES_LEN := Nat.div_mul_le_self _ _
    subst hb
    refine ⟨by rw [hadd]; exact Nat.min_le_left _ _, rfl, ?_, ?_, ?_, ?_⟩
    · rw [chunksTotal_append]
      dsimp only
      omega
    · rw [liveB_append _ _ _ hio]
      simp only [ChunkHeader.new_raw]
    · intro v hv
      exact skel_append v b _ _ hv hio
    · intro hsize
      rw [sumSizesB_append]
      have := (new_raw_exact added b.block_size b.space size hmul
        (by omega) hsize).2
      rw [this]

end FastbootRs

namespace FastbootRs

lemma rawChunkLoop_step_none (bs size io csz bo fuel blocks : Nat)
    (builder : SplitBuilder) (splits : List Split)
    (har : builder.add_raw (io + (blocks * bs) % U32_MOD) (csz - blocks) =
      none) :
    rawChunkLoop bs size io csz bo (fuel + 1) blocks builder splits = none := by
  simp only [rawChunkLoop]
  rw [har]

lemma rawChunkLoop_step_some (bs size io csz bo fuel blocks : Nat)
    (builder bmid : SplitBuilder) (splits : List Split) (added : Nat)
    (har : builder.add_raw (io + (blocks * bs) % U32_MOD) (csz - blocks) =
      some (added, bmid)) :
    rawChunkLoop bs size io csz bo (fuel + 1) blocks builder splits =
      if csz ≤ blocks + added then some (bmid, splits)
      else rawChunkLoop bs size io csz bo fuel (blocks + added)
        (SplitBuilder.new bs size ((bo + (blocks + added)) % U32_MOD))
        (splits ++ [bmid.finish]) := by
  simp only [rawChunkLoop]
  rw [har]

lemma rawChunkLoop_master (bs size io csz bo : Nat)
    (hms : FILE_HEADER_BYTES_LEN + 2 * CHUNK_HEADER_BYTES_LEN + bs ≤ size)
    (hio : io ≠ 0) :
    ∀ (fuel blocks : Nat) (builder : SplitBuilder) (splits : List Split)
      (b2 : SplitBuilder) (s2 : List Split),
      blocks ≤ csz →
      (∀ s ∈ splits, s.sparse_size ≤ size) →
      FILE_HEADER_BYTES_LEN + chunksTotal builder + builder.space = size →
      builder.block_size = bs →
      rawChunkLoop bs size io csz bo fuel blocks builder splits =
        some (b2, s2) →
      (∀ s ∈ s2, s.sparse_size ≤ size) ∧
      FILE_HEADER_BYTES_LEN + chunksTotal b2 + b2.space = size ∧
      b2.block_size = bs ∧
      (size < U32_MOD →
        sumSplitSizes s2 + sumSizesB b2 =
          sumSplitSizes splits + sumSizesB builder + (csz - blocks) * bs) := by
  intro fuel
  induction fuel with
  | zero =>
    intro blocks builder splits b2 s2 _ _ _ _ h
    exact absurd h (by simp [rawChunkLoop])
  | succ fuel ih =>
    intro blocks builder splits b2 s2 hble hsz hbud hbs h
    have hF : FILE_HEADER_BYTES_LEN = 28 := rfl
    have hC : CHUNK_HEADER_BYTES_LEN = 12 := rfl
    cases har : builder.add_raw (io + (blocks * bs) % U32_MOD)
        (csz - blocks) with
    | none =>
      rw [rawChunkLoop_step_none bs size io csz bo fuel blocks builder splits
        har] at h
      exact absurd h (by simp)
    | some p =>
      obtain ⟨added, bmid⟩ := p
      rw [rawChunkLoop_step_some bs size io csz bo fuel blocks builder bmid
        splits added har] at h
      have hio' : io + (blocks * bs) % U32_MOD ≠ 0 := by omega
      obtain ⟨hale, hbs2, hbud2, hliv2, hskel2, hsiz2⟩ :=
        add_raw_push builder (io + (blocks * bs) % U32_MOD) (csz - blocks)
          added bmid size hio' hbud har
      by_cases hfull : csz ≤ blocks + added
      · rw [if_pos hfull] at h
        simp only [Option.some.injEq, Prod.mk.injEq] at h
        obtain ⟨hb, hs⟩ := h
        subst hb
        subst hs
        have hadd : added = csz - blocks := by omega
        refine ⟨hsz, hbud2, hbs2.trans hbs, ?_⟩
        intro hsize
        have := hsiz2 hsize
        rw [hbs] at this
        have hmul : added * bs = (csz - blocks) * bs := by rw [hadd]
        omega
      · rw [if_neg hfull] at h
        have hble' : blocks + added ≤ csz := by omega
        have hsz' : ∀ s ∈ splits ++ [bmid.finish], s.sparse_size ≤ size := by
          intro s hsmem
          rcases List.mem_append.mp hsmem with hm | hm
          · exact hsz s hm
          · rw [List.mem_singleton] at hm
            subst hm
            rw [finish_sparse]
            omega
        have hbud' := new_space_eq bs size ((bo + (blocks + added)) % U32_MOD)
          (by omega)
        have hbs' := new_block_size bs size ((bo + (blocks + added)) % U32_MOD)
        obtain ⟨g4, g5, g6, g7⟩ :=
          ih (blocks + added)
            (SplitBuilder.new bs size ((bo + (blocks + added)) % U32_MOD))
            (splits ++ [bmid.finish]) b2 s2 hble' hsz' hbud' hbs' h
        refine ⟨g4, g5, g6, ?_⟩
        intro hsize
        have hrec := g7 hsize
        rw [sumSplitSizes_append, finish_sizes, new_sizesB] at hrec
        have hstep := hsiz2 hsize
        rw [hbs] at hstep
        have hmul : (csz - blocks) * bs =
            added * bs + (csz - (blocks + added)) * bs := by
          have hd : csz - blocks = added + (csz - (blocks + added)) := by omega
          rw [hd, Nat.add_mul]
        omega

end FastbootRs

namespace FastbootRs

lemma new_space_ge (bs size v : Nat) :
    size - (FILE_HEADER_BYTES_LEN + CHUNK_HEADER_BYTES_LEN) ≤
      (SplitBuilder.new bs size v).space := by
  unfold SplitBuilder.new
  split_ifs with hv
  · simp only [FILE_HEADER_BYTES_LEN, CHUNK_HEADER_BYTES_LEN]
    omega
  · simp only [ChunkHeader.new_dontcare, FILE_HEADER_BYTES_LEN,
      CHUNK_HEADER_BYTES_LEN]
    omega

lemma chunksTotal_of_chunks (b b2 : SplitBuilder) (sc : SplitChunk)
    (hch : b2.chunks = b.chunks ++ [sc]) :
    chunksTotal b2 = chunksTotal b + sc.header.total_size := by
  simp [chunksTotal, hch]

lemma sumSizesB_of_chunks (b b2 : SplitBuilder) (sc : SplitChunk)
    (hch : b2.chunks = b.chunks ++ [sc]) :
    sumSizesB b2 = sumSizesB b + sc.size := by
  simp [sumSizesB, hch]

lemma try_add_fields (b : SplitBuilder) (c : ChunkHeader) (io : Nat)
    (b2 : SplitBuilder) (h : b.try_add_chunk c io = some b2) :
    c.total_size < b.space ∧
    b2.space = b.space - c.total_size ∧
    b2.block_size = b.block_size ∧
    b2.chunks = b.chunks ++ [⟨c, io, c.data_size⟩] := by
  obtain ⟨hlt, hbn⟩ := try_add_some b c io b2 h
  subst hbn
  exact ⟨hlt, rfl, rfl, rfl⟩

lemma splitImageGo_master (bs size : Nat)
    (hms : FILE_HEADER_BYTES_LEN + 2 * CHUNK_HEADER_BYTES_LEN + bs ≤ size) :
    ∀ (cs : List ChunkHeader) (bo io : Nat) (builder : SplitBuilder)
      (splits : List Split) (r : Except SplitError (List Split)),
      io ≠ 0 →
      (∀ s ∈ splits, s.sparse_size ≤ size) →
      FILE_HEADER_BYTES_LEN + chunksTotal builder + builder.space = size →
      builder.block_size = bs →
      splitImageGo bs size cs bo io builder splits = some r →
      (∀ e, r = .error e →
        ∃ c, c ∈ cs ∧ c.chunk_type ≠ ChunkType.Raw ∧
          size - (FILE_HEADER_BYTES_LEN + CHUNK_HEADER_BYTES_LEN) ≤
            c.total_size) ∧
      (∀ L, r = .ok L →
        (∀ s ∈ L, s.sparse_size ≤ size) ∧
        (size < U32_MOD → (∀ c ∈ cs, RawWF bs c) →
          sumSplitSizes L =
            sumSplitSizes splits + sumSizesB builder + sumDataSizes cs)) := by
  intro cs
  induction cs with
  | nil =>
    intro bo io builder splits r hio hsz hbud hbs h
    simp only [splitImageGo, Option.some.injEq] at h
    subst h
    constructor
    · intro e he
      exact absurd he (by simp)
    · intro L hL
      simp only [Except.ok.injEq] at hL
      subst hL
      have hF : FILE_HEADER_BYTES_LEN = 28 := rfl
      have hC : CHUNK_HEADER_BYTES_LEN = 12 := rfl
      constructor
      · intro s hsmem
        rcases List.mem_append.mp hsmem with hm | hm
        · exact hsz s hm
        · rw [List.mem_singleton] at hm
          subst hm
          rw [finish_sparse]
          omega
      · intro _ _
        rw [sumSplitSizes_append, finish_sizes]
        simp [sumDataSizes]
  | cons c rest ih =>
    intro bo io builder splits r hio hsz hbud hbs h
    have hF : FILE_HEADER_BYTES_LEN = 28 := rfl
    have hC : CHUNK_HEADER_BYTES_LEN = 12 := rfl
    have hcons : sumDataSizes (c :: rest) = c.data_size + sumDataSizes rest := by
      simp [sumDataSizes]
    simp only [splitImageGo] at h
    split at h
    · rename_i bnext hta
      obtain ⟨hlt, hsp, hbsn, hch⟩ := try_add_fields builder c io bnext hta
      have hio' : io + c.total_size ≠ 0 := by omega
      have hct := chunksTotal_of_chunks builder bnext ⟨c, io, c.data_size⟩ hch
      dsimp only at hct
      have hss := sumSizesB_of_chunks builder bnext ⟨c, io, c.data_size⟩ hch
      dsimp only at hss
      obtain ⟨ge, gok⟩ := ih ((bo + c.chunk_size) % U32_MOD)
        (io + c.total_size) bnext splits r hio' hsz (by omega)
        (hbsn.trans hbs) h
      refine ⟨?_, ?_⟩
      · intro e he
        obtain ⟨c', hc', hnr, hle⟩ := ge e he
        exact ⟨c', List.mem_cons_of_mem _ hc', hnr, hle⟩
      · intro L hL
        obtain ⟨g2, g3⟩ := gok L hL
        refine ⟨g2, ?_⟩
        intro hsize hwf
        have hrec := g3 hsize (fun c' hc' => hwf c' (List.mem_cons_of_mem _ hc'))
        omega
    · rename_i hta
      by_cases hr : c.chunk_type = ChunkType.Raw
      · rw [if_pos hr] at h
        split at h
        · rename_i hraw
          exact absurd h (by simp)
        · rename_i bL sL hraw
          obtain ⟨m4, m5, m6, m7⟩ :=
            rawChunkLoop_master bs size io c.chunk_size bo hms hio
              (c.chunk_size + 2) 0 builder splits bL sL (Nat.zero_le _)
              hsz hbud hbs hraw
          have hio' : io + c.total_size ≠ 0 := by omega
          obtain ⟨ge, gok⟩ := ih ((bo + c.chunk_size) % U32_MOD)
            (io + c.total_size) bL sL r hio' m4 m5 m6 h
          refine ⟨?_, ?_⟩
          · intro e he
            obtain ⟨c', hc', hnr, hle⟩ := ge e he
            exact ⟨c', List.mem_cons_of_mem _ hc', hnr, hle⟩
          · intro L hL
            obtain ⟨g2, g3⟩ := gok L hL
            refine ⟨g2, ?_⟩
            intro hsize hwf
            have hrec := g3 hsize
              (fun c' hc' => hwf c' (List.mem_cons_of_mem _ hc'))
            have hm7 := m7 hsize
            rw [Nat.sub_zero] at hm7
            have hwfc := hwf c (List.mem_cons_self _ _) hr
            have hds : c.data_size = c.chunk_size * bs := by
              rw [ChunkHeader.data_size, hwfc]
              omega
            omega
      · rw [if_neg hr] at h
        split at h
        · rename_i bnext hta2
          obtain ⟨hlt2, hsp, hbsn, hch⟩ :=
            try_add_fields (SplitBuilder.new bs size bo) c io bnext hta2
          have hio' : io + c.total_size ≠ 0 := by omega
          have hct := chunksTotal_of_chunks (SplitBuilder.new bs size bo) bnext
            ⟨c, io, c.data_size⟩ hch
          dsimp only at hct
          have hss := sumSizesB_of_chunks (SplitBuilder.new bs size bo) bnext
            ⟨c, io, c.data_size⟩ hch
          dsimp only at hss
          have hns := new_sizesB bs size bo
          have hnsp := new_space_eq bs size bo (by omega)
          have hsz' : ∀ s ∈ splits ++ [builder.finish],
              s.sparse_size ≤ size := by
            intro s hsmem
            rcases List.mem_append.mp hsmem with hm | hm
            · exact hsz s hm
            · rw [List.mem_singleton] at hm
              subst hm
              rw [finish_sparse]
              omega
          obtain ⟨ge, gok⟩ := ih ((bo + c.chunk_size) % U32_MOD)
            (io + c.total_size) bnext (splits ++ [builder.finish]) r hio'
            hsz' (by omega) (hbsn.trans (new_block_size bs size bo)) h
          refine ⟨?_, ?_⟩
          · intro e he
            obtain ⟨c', hc', hnr, hle⟩ := ge e he
            exact ⟨c', List.mem_cons_of_mem _ hc', hnr, hle⟩
          · intro L hL
            obtain ⟨g2, g3⟩ := gok L hL
            refine ⟨g2, ?_⟩
            intro hsize hwf
            have hrec := g3 hsize
              (fun c' hc' => hwf c' (List.mem_cons_of_mem _ hc'))
            rw [sumSplitSizes_append, finish_sizes] at hrec
            omega
        · rename_i hta2
          simp only [Option.some.injEq] at h
          subst h
          refine ⟨?_, ?_⟩
          · intro e he
            have h1 := try_add_none _ c io hta2
            have h2 := new_space_ge bs size bo
            exact ⟨c, List.mem_cons_self _ _, hr, by omega⟩
          · intro L hL
            exact absurd hL (by simp)

end FastbootRs

namespace FastbootRs

lemma add_raw_total (b : SplitBuilder) (io rem : Nat) (hz : b.block_size ≠ 0) :
    ∃ added b2, b.add_raw io rem = some (added, b2) := by
  unfold SplitBuilder.add_raw
  rw [if_neg hz]
  dsimp only
  split_ifs <;> exact ⟨_, _, rfl⟩

lemma add_raw_fields (b : SplitBuilder) (io rem added : Nat) (b2 : SplitBuilder)
    (h : b.add_raw io rem = some (added, b2)) :
    added ≤ rem ∧ b2.block_size = b.block_size ∧
    ((added = 0 ∧ b2 = b ∧
        (b.space - CHUNK_HEADER_BYTES_LEN) / b.block_size = 0) ∨
     (b2.chunks = b.chunks ++
        [⟨ChunkHeader.new_raw added b.block_size, io,
          (ChunkHeader.new_raw added b.block_size).data_size⟩] ∧
      b2.space = b.space -
        (ChunkHeader.new_raw added b.block_size).total_size ∧
      (ChunkHeader.new_raw added b.block_size).total_size ≤ b.space ∧
      added = min rem ((b.space - CHUNK_HEADER_BYTES_LEN) / b.block_size) ∧
      0 < (b.space - CHUNK_HEADER_BYTES_LEN) / b.block_size)) := by
  obtain ⟨hz, hcase⟩ := add_raw_spec b io rem added b2 h
  rcases hcase with ⟨ha0, hb, hbl0⟩ | ⟨hbl, hadd, hb⟩
  · exact ⟨by omega, by rw [hb], Or.inl ⟨ha0, hb, hbl0⟩⟩
  · have hle : added ≤ (b.space - CHUNK_HEADER_BYTES_LEN) / b.block_size := by
      rw [hadd]
      exact Nat.min_le_right _ _
    have htot := new_raw_total_le added b.block_size b.space hbl hle
    subst hb
    exact ⟨by rw [hadd]; exact Nat.min_le_left _ _, rfl,
      Or.inr ⟨rfl, rfl, htot, hadd, hbl⟩⟩

lemma rawBlocksOf_of_chunks (s : Split) (v k off sz : Nat)
    (hch : s.chunks = synth v ++
      [⟨ChunkHeader.new_raw k DEFAULT_BLOCKSIZE, off, sz⟩]) :
    rawBlocksOf s = k := by
  rw [rawBlocksOf, hch]
  unfold synth
  have hne : (ChunkType.DontCare == ChunkType.Raw) = false := by decide
  have hye : (ChunkType.Raw == ChunkType.Raw) = true := by decide
  split_ifs <;>
    simp [ChunkHeader.new_raw, ChunkHeader.new_dontcare, List.filter, hne, hye]

lemma splitRawLoop_main (size : Nat)
    (hms : FILE_HEADER_BYTES_LEN + 2 * CHUNK_HEADER_BYTES_LEN +
      DEFAULT_BLOCKSIZE ≤ size) (rb : Nat) (hrb : rb ≤ 2 ^ 20) :
    ∀ (fuel bo : Nat) (splits : List Split),
      bo ≤ rb → rb - bo < fuel →
      ∃ L', splitRawLoop size rb fuel bo splits = some (splits ++ L') ∧
        bo + (L'.map rawBlocksOf).sum = rb ∧
        RawStructFrom bo L' ∧
        (∀ s ∈ L', s.sparse_size ≤ size) := by
  intro fuel
  induction fuel with
  | zero =>
    intro bo splits hble hfuel
    omega
  | succ fuel ih =>
    intro bo splits hble hfuel
    have hF : FILE_HEADER_BYTES_LEN = 28 := rfl
    have hC : CHUNK_HEADER_BYTES_LEN = 12 := rfl
    have hD : DEFAULT_BLOCKSIZE = 4096 := rfl
    have h20 : (2 : Nat) ^ 20 = 1048576 := by norm_num
    by_cases hlt : bo < rb
    · have hoff : (bo * DEFAULT_BLOCKSIZE) % U32_MOD =
          bo * DEFAULT_BLOCKSIZE := by
        refine Nat.mod_eq_of_lt ?_
        simp only [DEFAULT_BLOCKSIZE, U32_MOD]
        omega
      have hsge := new_space_ge DEFAULT_BLOCKSIZE size bo
      have hbsn := new_block_size DEFAULT_BLOCKSIZE size bo
      have hnsp := new_space_eq DEFAULT_BLOCKSIZE size bo (by omega)
      have hzb : (SplitBuilder.new DEFAULT_BLOCKSIZE size bo).block_size ≠ 0 := by
        rw [hbsn]
        decide
      obtain ⟨added, b2, hadd⟩ := add_raw_total
        (SplitBuilder.new DEFAULT_BLOCKSIZE size bo)
        ((bo * DEFAULT_BLOCKSIZE) % U32_MOD) (rb - bo) hzb
      obtain ⟨hale, hbs2, hcase⟩ := add_raw_fields _ _ _ added b2 hadd
      have hbl : 0 <
          ((SplitBuilder.new DEFAULT_BLOCKSIZE size bo).space -
            CHUNK_HEADER_BYTES_LEN) /
          (SplitBuilder.new DEFAULT_BLOCKSIZE size bo).block_size := by
        rw [hbsn]
        refine Nat.div_pos (by omega) (by decide)
      rcases hcase with ⟨_, _, hbl0⟩ | ⟨hchraw, hsp, htot, haddv, _⟩
      · rw [hbsn] at hbl hbl0
        omega
      · have ha1 : 1 ≤ added := by
          rw [haddv]
          rw [hbsn] at hbl ⊢
          exact le_min (by omega) hbl
        have heq : splitRawLoop size rb (fuel + 1) bo splits =
            splitRawLoop size rb fuel (bo + added)
              (splits ++ [b2.finish]) := by
          simp only [splitRawLoop]
          rw [if_pos hlt, hadd]
        have hch : b2.finish.chunks = synth bo ++
            [⟨ChunkHeader.new_raw added DEFAULT_BLOCKSIZE,
              bo * DEFAULT_BLOCKSIZE,
              (ChunkHeader.new_raw added DEFAULT_BLOCKSIZE).data_size⟩] := by
          rw [finish_chunks, hchraw, new_chunks, hbsn, hoff]
        have hro : rawBlocksOf b2.finish = added :=
          rawBlocksOf_of_chunks b2.finish bo added (bo * DEFAULT_BLOCKSIZE)
            _ hch
        have hct := chunksTotal_of_chunks
          (SplitBuilder.new DEFAULT_BLOCKSIZE size bo) b2
          ⟨ChunkHeader.new_raw added
              (SplitBuilder.new DEFAULT_BLOCKSIZE size bo).block_size,
            (bo * DEFAULT_BLOCKSIZE) % U32_MOD,
            (ChunkHeader.new_raw added
              (SplitBuilder.new DEFAULT_BLOCKSIZE size bo).block_size).data_size⟩
          hchraw
        dsimp only at hct
        obtain ⟨L', hrun, hsum, hstruct, hsz'⟩ :=
          ih (bo + added) (splits ++ [b2.finish]) (by omega) (by omega)
        refine ⟨b2.finish :: L', ?_, ?_, ?_, ?_⟩
        · rw [heq, hrun]
          simp
        · simp only [List.map_cons, List.sum_cons, hro]
          omega
        · exact ⟨⟨added, ha1, hch⟩, by rw [hro]; exact hstruct⟩
        · intro s hs
          rcases List.mem_cons.mp hs with hs | hs
          · subst hs
            rw [finish_sparse]
            omega
          · exact hsz' s hs
    · refine ⟨[], ?_, by simp; omega, trivial, by simp⟩
      simp only [splitRawLoop]
      rw [if_neg hlt]
      simp

lemma split_raw_run (raw_size size : Nat)
    (hge : ¬ size < FILE_HEADER_BYTES_LEN + 2 * CHUNK_HEADER_BYTES_LEN +
      DEFAULT_BLOCKSIZE)
    (hrb : divCeil raw_size DEFAULT_BLOCKSIZE % U32_MOD ≤ 2 ^ 20) :
    ∃ L, split_raw raw_size size = some (.ok L) ∧
      (L.map rawBlocksOf).sum = divCeil raw_size DEFAULT_BLOCKSIZE % U32_MOD ∧
      RawStructFrom 0 L ∧ (∀ s ∈ L, s.sparse_size ≤ size) := by
  obtain ⟨L', hrun, hsum, hstruct, hsz⟩ :=
    splitRawLoop_main size (by omega)
      (divCeil raw_size DEFAULT_BLOCKSIZE % U32_MOD) hrb
      ((divCeil raw_size DEFAULT_BLOCKSIZE % U32_MOD) + 1) 0 []
      (Nat.zero_le _) (by omega)
  have hch : check_minimal_size size DEFAULT_BLOCKSIZE = .ok () := by
    unfold check_minimal_size
    rw [if_neg hge]
  refine ⟨L', ?_, by simpa using hsum, hstruct, hsz⟩
  simp only [split_raw]
  rw [hch]
  show (splitRawLoop size (divCeil raw_size DEFAULT_BLOCKSIZE % U32_MOD)
      ((divCeil raw_size DEFAULT_BLOCKSIZE % U32_MOD) + 1) 0 []).map
      Except.ok = some (.ok L')
  rw [hrun]
  simp

lemma split_image_run (header : FileHeader) (cs : List ChunkHeader)
    (size : Nat)
    (hge : ¬ size < FILE_HEADER_BYTES_LEN + 2 * CHUNK_HEADER_BYTES_LEN +
      header.block_size)
    (r : Except SplitError (List Split))
    (h : split_image header cs size = some r) :
    (∀ e, r = .error e →
      ∃ c, c ∈ cs ∧ c.chunk_type ≠ ChunkType.Raw ∧
        size - (FILE_HEADER_BYTES_LEN + CHUNK_HEADER_BYTES_LEN) ≤
          c.total_size) ∧
    (∀ L, r = .ok L →
      (∀ s ∈ L, s.sparse_size ≤ size) ∧
      (size < U32_MOD → (∀ c ∈ cs, RawWF header.block_size c) →
        sumSplitSizes L = sumDataSizes cs)) := by
  have hF : FILE_HEADER_BYTES_LEN = 28 := rfl
  have hC : CHUNK_HEADER_BYTES_LEN = 12 := rfl
  have hch : check_minimal_size size header.block_size = .ok () := by
    unfold check_minimal_size
    rw [if_neg hge]
  have hgo : splitImageGo header.block_size size cs 0
      (FILE_HEADER_BYTES_LEN + CHUNK_HEADER_BYTES_LEN)
      (SplitBuilder.new header.block_size size 0) [] = some r := by
    rw [← h]
    simp only [split_image]
    rw [hch]
  obtain ⟨ge, gok⟩ := splitImageGo_master header.block_size size (by omega)
    cs 0 (FILE_HEADER_BYTES_LEN + CHUNK_HEADER_BYTES_LEN)
    (SplitBuilder.new header.block_size size 0) [] r (by omega)
    (by intro s hs; simp at hs) (new_space_eq _ _ _ (by omega))
    (new_block_size _ _ _) hgo
  refine ⟨ge, ?_⟩
  intro L hL
  obtain ⟨g2, g3⟩ := gok L hL
  refine ⟨g2, fun hsize hwf => ?_⟩
  have hres := g3 hsize hwf
  simpa [sumSplitSizes, new_sizesB] using hres

end FastbootRs

namespace FastbootRs

/-- C1 (amended): split coverage.  For a budget of at least
`28 + 2*12 + block_size` that fits in `u32`, and input chunks whose Raw
chunks are well-formed (`total_size = 12 + chunk_size * block_size`), a
successful `split_image` emits splits whose stored chunk payload sizes
sum to exactly the sum of the input chunks' `data_size` — no payload
byte is duplicated or omitted.  The well-formedness and `u32` bounds are
required: malformed Raw chunks are re-emitted with recomputed headers,
and `ChunkHeader::new_raw` saturates at `u32::MAX`
(see `C1_counterexample`). -/
theorem C1_split_coverage (header : FileHeader) (cs : List ChunkHeader)
    (size : Nat) (L : List Split)
    (hB : FILE_HEADER_BYTES_LEN + 2 * CHUNK_HEADER_BYTES_LEN +
      header.block_size ≤ size)
    (hsize : size < U32_MOD)
    (hwf : ∀ c ∈ cs, RawWF header.block_size c)
    (h : split_image header cs size = some (.ok L)) :
    sumSplitSizes L = sumDataSizes cs :=
  ((split_image_run header cs size (by omega) _ h).2 L rfl).2 hsize hwf

/-- Witness for C1: a well-formed one-block Raw image split with budget
4148 keeps exactly its 4096 payload bytes. -/
theorem C1_split_coverage_witness :
    FILE_HEADER_BYTES_LEN + 2 * CHUNK_HEADER_BYTES_LEN +
      (⟨4096, 0, 0, 0⟩ : FileHeader).block_size ≤ 4148 ∧
    4148 < U32_MOD ∧
    (∀ c ∈ [(⟨ChunkType.Raw, 1, 4108⟩ : ChunkHeader)],
      RawWF (⟨4096, 0, 0, 0⟩ : FileHeader).block_size c) ∧
    sumSplitSizes [⟨⟨4096, 1, 1, 0⟩,
      [⟨⟨ChunkType.Raw, 1, 4108⟩, 40, 4096⟩]⟩] =
      sumDataSizes [⟨ChunkType.Raw, 1, 4108⟩] :=
  ⟨by decide, by decide, (by
      intro c hc
      rw [List.mem_singleton] at hc
      subst hc
      unfold RawWF
      intro _
      norm_num [CHUNK_HEADER_BYTES_LEN]),
    C1_split_coverage ⟨4096, 0, 0, 0⟩ [⟨ChunkType.Raw, 1, 4108⟩] 4148
      [⟨⟨4096, 1, 1, 0⟩, [⟨⟨ChunkType.Raw, 1, 4108⟩, 40, 4096⟩]⟩]
      (by decide) (by decide)
      (by
      intro c hc
      rw [List.mem_singleton] at hc
      subst hc
      unfold RawWF
      intro _
      norm_num [CHUNK_HEADER_BYTES_LEN]) rfl⟩

/-- Counterexample refuting C1 as stated (for every header, chunk list
and budget ≥ 28+2*12+block_size).  (a) A malformed Raw chunk claiming 1
block but `total_size = 5000` is re-emitted as a fresh
`ChunkHeader::new_raw`, so the output stores 4096 payload bytes while
the input's `data_size` is 4988.  (b) Even for well-formed Raw input,
with `block_size = 1` and a budget of `2^32 + 40` the rebuilt header
saturates at `u32::MAX`, storing `2^32 - 13` payload bytes against a
`data_size` of `2^32`. -/
theorem C1_counterexample :
    (split_image ⟨4096, 0, 0, 0⟩ [⟨ChunkType.Raw, 1, 5000⟩] 4148 =
        some (.ok [⟨⟨4096, 1, 1, 0⟩,
          [⟨⟨ChunkType.Raw, 1, 4108⟩, 40, 4096⟩]⟩]) ∧
      FILE_HEADER_BYTES_LEN + 2 * CHUNK_HEADER_BYTES_LEN +
        (⟨4096, 0, 0, 0⟩ : FileHeader).block_size ≤ 4148 ∧
      sumSplitSizes [⟨⟨4096, 1, 1, 0⟩,
        [⟨⟨ChunkType.Raw, 1, 4108⟩, 40, 4096⟩]⟩] ≠
        sumDataSizes [⟨ChunkType.Raw, 1, 5000⟩]) ∧
    (split_image ⟨1, 0, 0, 0⟩ [⟨ChunkType.Raw, 2 ^ 32, 2 ^ 32 + 12⟩]
        (2 ^ 32 + 40) =
        some (.ok [⟨⟨1, 4294967296, 1, 0⟩,
          [⟨⟨ChunkType.Raw, 4294967296, 4294967295⟩, 40, 4294967283⟩]⟩]) ∧
      FILE_HEADER_BYTES_LEN + 2 * CHUNK_HEADER_BYTES_LEN +
        (⟨1, 0, 0, 0⟩ : FileHeader).block_size ≤ 2 ^ 32 + 40 ∧
      (∀ c ∈ [(⟨ChunkType.Raw, 2 ^ 32, 2 ^ 32 + 12⟩ : ChunkHeader)],
        RawWF (⟨1, 0, 0, 0⟩ : FileHeader).block_size c) ∧
      sumSplitSizes [⟨⟨1, 4294967296, 1, 0⟩,
        [⟨⟨ChunkType.Raw, 4294967296, 4294967295⟩, 40, 4294967283⟩]⟩] ≠
        sumDataSizes [⟨ChunkType.Raw, 2 ^ 32, 2 ^ 32 + 12⟩]) :=
  ⟨⟨rfl, by decide, by decide⟩, ⟨rfl, by decide,
    (by
      intro c hc
      rw [List.mem_singleton] at hc
      subst hc
      unfold RawWF
      intro _
      norm_num [CHUNK_HEADER_BYTES_LEN]), by decide⟩⟩

/-- C5 (amended): raw split.  For any raw byte size `R` of at most
`2^20` blocks (4 GiB: beyond that the u32 product
`block_offset * DEFAULT_BLOCKSIZE` computing the Raw source offsets
wraps in release builds and panics in debug builds, see
`C5_counterexample`), and budget ≥ 28+2*12+4096, `split_raw` succeeds;
the Raw `chunk_size`s across all splits sum to `ceil(R/4096)`, and the
splits have the shape `RawStructFrom 0`: split 0 is exactly one Raw
chunk at source offset 0, and each later split is a synthetic DontCare
counting all blocks covered so far followed by exactly one Raw chunk at
that block count times 4096. -/
theorem C5_raw_split (R B : Nat)
    (hB : FILE_HEADER_BYTES_LEN + 2 * CHUNK_HEADER_BYTES_LEN +
      DEFAULT_BLOCKSIZE ≤ B)
    (hmod : divCeil R DEFAULT_BLOCKSIZE ≤ 2 ^ 20) :
    ∃ L, split_raw R B = some (.ok L) ∧
      (L.map rawBlocksOf).sum = divCeil R DEFAULT_BLOCKSIZE ∧
      RawStructFrom 0 L := by
  have h20 : (2 : Nat) ^ 20 = 1048576 := by norm_num
  have hlt : divCeil R DEFAULT_BLOCKSIZE < U32_MOD := by
    simp only [U32_MOD]
    omega
  have hmodeq : divCeil R DEFAULT_BLOCKSIZE % U32_MOD =
      divCeil R DEFAULT_BLOCKSIZE := Nat.mod_eq_of_lt hlt
  obtain ⟨L, hL, hsum, hstruct, _⟩ := split_raw_run R B (by omega)
    (by rw [hmodeq]; exact hmod)
  exact ⟨L, hL, by rw [hsum, hmodeq], hstruct⟩

/-- Witness for C5 at the spec's S5 instance: an 8-block raw image with
a 3-block budget. -/
theorem C5_raw_split_witness :
    FILE_HEADER_BYTES_LEN + 2 * CHUNK_HEADER_BYTES_LEN +
      DEFAULT_BLOCKSIZE ≤ 12288 ∧
    divCeil (8 * 4096) DEFAULT_BLOCKSIZE ≤ 2 ^ 20 ∧
    ∃ L, split_raw (8 * 4096) 12288 = some (.ok L) ∧
      (L.map rawBlocksOf).sum = divCeil (8 * 4096) DEFAULT_BLOCKSIZE ∧
      RawStructFrom 0 L :=
  ⟨by decide, by decide, C5_raw_split (8 * 4096) 12288 (by decide) (by decide)⟩

/-- Counterexample refuting C5 as stated (for every raw_size).
(a) `raw_size.div_ceil(4096) as u32` truncates modulo `2^32`, so a
`2^44`-byte raw image yields zero splits even though its block count is
`2^32 ≠ 0`.  (b) For a `2^33`-byte image (block count `2^21 < 2^32`)
with budget `2^32 - 1`, the u32 product `block_offset * 4096` overflows
once `block_offset` passes `2^20`: release builds store a wrapped Raw
source offset (the model shows split 2's Raw chunk at offset
`4294959104` instead of `2097150 * 4096`), debug builds panic — the
claimed per-split offsets are never produced. -/
theorem C5_counterexample :
    (split_raw (2 ^ 44) 4148 = some (.ok []) ∧
      FILE_HEADER_BYTES_LEN + 2 * CHUNK_HEADER_BYTES_LEN +
        DEFAULT_BLOCKSIZE ≤ 4148 ∧
      (([] : List Split).map rawBlocksOf).sum = 0 ∧
      divCeil (2 ^ 44) DEFAULT_BLOCKSIZE ≠ 0) ∧
    (split_raw (2 ^ 33) (2 ^ 32 - 1) =
      some (.ok [⟨⟨4096, 1048575, 1, 0⟩,
          [⟨⟨ChunkType.Raw, 1048575, 4294963212⟩, 0, 4294963200⟩]⟩,
        ⟨⟨4096, 2097150, 2, 0⟩, [⟨⟨ChunkType.DontCare, 1048575, 12⟩, 0, 0⟩,
          ⟨⟨ChunkType.Raw, 1048575, 4294963212⟩, 4294963200, 4294963200⟩]⟩,
        ⟨⟨4096, 2097152, 2, 0⟩, [⟨⟨ChunkType.DontCare, 2097150, 12⟩, 0, 0⟩,
          ⟨⟨ChunkType.Raw, 2, 8204⟩, 4294959104, 8192⟩]⟩]) ∧
      FILE_HEADER_BYTES_LEN + 2 * CHUNK_HEADER_BYTES_LEN +
        DEFAULT_BLOCKSIZE ≤ 2 ^ 32 - 1 ∧
      divCeil (2 ^ 33) DEFAULT_BLOCKSIZE < U32_MOD ∧
      (2097150 : Nat) * DEFAULT_BLOCKSIZE ≠ 4294959104) :=
  ⟨⟨rfl, by decide, rfl, by decide⟩, ⟨rfl, by decide, by decide, by decide⟩⟩

end FastbootRs
